import Mathlib

/-!
Verification of the PPE frame-triage pipeline (ppe-scripts).

The development shallowly embeds the Python sources:
  * `config.py`            — constants (`BATCH_SIZE`, model list size)
  * `groq_client.py`       — `GroqVisionClient` (model rotation, batch analysis,
                             fail-open defaults) with the remote call and JSON
                             parse outcome supplied by the environment
  * `human_detector.py`    — `detect_and_organize_frames`, `restore_no_human_frames`
  * `dataset_analyzer.py`  — `analyze_and_organize_frames`, `restore_not_suitable_frames`
  * `image_analyzer.py`    — `analyze_and_filter_frames`
  * `frame_extractor.py`   — `extract_frames_from_video`, `extract_frames_from_videos`
  * `utils.py`             — `get_video_prefix`

Modelling conventions:
  * Filenames are `List Char` (ASCII assumed for the character classes of the
    regexes; Python's `\s` and `\d` are modelled on their ASCII subsets).
  * A frames directory is a pair: the plain files directly inside it, and the
    contents of the quarantine subfolder (`none` when the subfolder does not
    exist).  `os.listdir` + `os.path.isfile` therefore see exactly `root`.
  * The remote oracle call is nondeterministic in reality; each batch call is
    given a `CallOutcome` by the environment: the transport raising, the JSON
    body failing to parse, or a parsed list of per-image entries.
  * `shutil.move` success/failure is an environment predicate on filenames.
  * Real numbers (frame rates, confidences) are modelled as `ℚ`; the
    truncation-vs-rounding distinctions proved below are robust to the
    float/rational difference away from representation boundaries.
-/

namespace PPE

abbrev FileName := List Char

/-! ### config.py -/

/-- `BATCH_SIZE = 5` in `config.py`. -/
def BATCH_SIZE : Nat := 5

/-! ### Generic helpers used by the embedding -/

/-- Structural worker for `chunkList`; the fuel (initially the list length)
only guarantees structural termination and never runs out for a positive
chunk size. -/
def chunkGo (B : Nat) : Nat → List FileName → List (List FileName)
  | _, [] => []
  | 0, _ :: _ => []
  | fuel + 1, x :: xs => (x :: xs).take B :: chunkGo B fuel ((x :: xs).drop B)

/-- Python `l[s:s+B]` chunking over `range(0, len(l), B)` in the engines'
batch loops.  `B = 0` cannot occur (the configured value is 5). -/
def chunkList (B : Nat) (l : List FileName) : List (List FileName) :=
  chunkGo B l.length l

/-- Lexicographic comparison of filenames by code point: Python's `sorted`
on strings (for the code-point sequences we model). -/
def leFile : List Char → List Char → Bool
  | [], _ => true
  | _ :: _, [] => false
  | a :: as, b :: bs => if a < b then true else if b < a then false else leFile as bs

/-- Stable insertion into a sorted listing. -/
def insertFile (f : FileName) : List FileName → List FileName
  | [] => [f]
  | g :: gs => if leFile f g then f :: g :: gs else g :: insertFile f gs

/-- `sorted(...)` on a file listing (stable, as Python's sort is; only the
resulting order matters to the engines). -/
def sortFiles (l : List FileName) : List FileName := l.foldr insertFile []

/-- `f.lower().endswith(('.jpg', '.jpeg', '.png'))` — the (case-insensitive)
image filter used by the triage scans. -/
def isImageName (f : FileName) : Bool :=
  let lf := f.map Char.toLower
  ".jpg".toList.isSuffixOf lf || ".jpeg".toList.isSuffixOf lf ||
    ".png".toList.isSuffixOf lf

/-- `f.endswith(('.jpg', '.jpeg', '.png'))` — the case-sensitive filter used
by the restore functions. -/
def isImageNameCS (f : FileName) : Bool :=
  ".jpg".toList.isSuffixOf f || ".jpeg".toList.isSuffixOf f ||
    ".png".toList.isSuffixOf f

/-! ### groq_client.py — `GroqVisionClient` -/

/-- The mutable state of a `GroqVisionClient`: the model list length
(`len(MODELS) = 2` in config), the rotation cursor and the request counter. -/
structure ClientState where
  numModels : Nat
  current_model_idx : Nat
  request_count : Nat
  deriving Repr, DecidableEq

/-- `_rotate_model`: advance the cursor by one, wrapping. -/
def rotateModel (s : ClientState) : ClientState :=
  { s with current_model_idx := (s.current_model_idx + 1) % s.numModels }

/-- One entry of the parsed `"images"` array of a response.  Fields are
`Option` because the Python code reads them with `dict.get` defaults. -/
structure ImagesEntry where
  has_human : Option Bool
  confidence : Option ℚ
  is_suitable : Option Bool
  deriving Repr, DecidableEq

/-- What the environment makes of one remote call:
`raise` — `client.chat.completions.create` raises;
`parseError` — the call returns but `json.loads` raises `JSONDecodeError`;
`ok` — the body parses, with the given `"images"` array. -/
inductive CallOutcome where
  | raise (msg : String)
  | parseError (msg : String)
  | ok (images : List ImagesEntry)

/-- A per-image result dictionary as built by the two batch methods.  Fields
are `Option` because the consumers read them with `dict.get` defaults and the
two methods populate different fields. -/
structure ResultDict where
  image_path : FileName
  has_human : Option Bool
  confidence : Option ℚ
  is_suitable : Option Bool
  error : Option String
  deriving Repr, DecidableEq

/-- `GroqVisionClient.analyze_images_batch` (human detection).  Truncates the
batch to `BATCH_SIZE`; on success rotates the model and maps entries back by
position with `get` defaults (`has_human` → `True`, `confidence` → `0.0`),
synthesizing a fail-open `"Missing in response"` entry for a short array; on a
JSON parse error the rotation has already happened; on a transport raise the
rotation has not happened; in both failure cases every image gets the
fail-open default with the error string attached. -/
def analyze_images_batch (st : ClientState) (image_paths : List FileName)
    (outcome : CallOutcome) : ClientState × List ResultDict :=
  if image_paths = [] then (st, [])
  else
    let paths := image_paths.take BATCH_SIZE
    match outcome with
    | .raise e =>
      (st, paths.map fun p =>
        { image_path := p, has_human := some true, confidence := some 0,
          is_suitable := none, error := some e })
    | .parseError e =>
      (rotateModel { st with request_count := st.request_count + 1 },
        paths.map fun p =>
          { image_path := p, has_human := some true, confidence := some 0,
            is_suitable := none, error := some e })
    | .ok images =>
      (rotateModel { st with request_count := st.request_count + 1 },
        paths.enum.map fun ip =>
          match images.get? ip.1 with
          | some entry =>
            { image_path := ip.2, has_human := some (entry.has_human.getD true),
              confidence := some (entry.confidence.getD 0),
              is_suitable := none, error := none }
          | none =>
            { image_path := ip.2, has_human := some true, confidence := some 0,
              is_suitable := none, error := some "Missing in response" })

/-- `GroqVisionClient.analyze_dataset_suitability_batch`.  Same shape as
`analyze_images_batch` but parses `is_suitable` (default `True`) and sets no
confidence. -/
def analyze_dataset_suitability_batch (st : ClientState)
    (image_paths : List FileName) (outcome : CallOutcome) :
    ClientState × List ResultDict :=
  if image_paths = [] then (st, [])
  else
    let paths := image_paths.take BATCH_SIZE
    match outcome with
    | .raise e =>
      (st, paths.map fun p =>
        { image_path := p, has_human := none, confidence := none,
          is_suitable := some true, error := some e })
    | .parseError e =>
      (rotateModel { st with request_count := st.request_count + 1 },
        paths.map fun p =>
          { image_path := p, has_human := none, confidence := none,
            is_suitable := some true, error := some e })
    | .ok images =>
      (rotateModel { st with request_count := st.request_count + 1 },
        paths.enum.map fun ip =>
          match images.get? ip.1 with
          | some entry =>
            { image_path := ip.2, has_human := none, confidence := none,
              is_suitable := some (entry.is_suitable.getD true), error := none }
          | none =>
            { image_path := ip.2, has_human := none, confidence := none,
              is_suitable := some true, error := some "Missing in response" })

/-! ### The frames directory -/

/-- A frames directory: the image files directly inside it, and the contents
of its quarantine subfolder (`none`: the subfolder does not exist).  The
subfolder's entry in `os.listdir` is excluded from the scans by the
`os.path.isfile` check, which is why only `root` is scanned. -/
structure Dir where
  root : List FileName
  quarantine : Option (List FileName)
  deriving Repr, DecidableEq

/-! ### human_detector.py — `detect_and_organize_frames` -/

/-- The statistics dictionary returned by `detect_and_organize_frames`
(`moved_files` is absent from the empty-directory early return in the source;
we model that return with `moved_files = []`). -/
structure DetectStats where
  total : Nat
  with_human : Nat
  no_human : Nat
  errors : Nat
  moved_files : List FileName
  deriving Repr, DecidableEq

/-- The per-result body of the detection loop: an error string that is truthy
counts as an error and skips the rest; otherwise `has_human` (default `True`)
decides; a rejected frame is moved unless `dry_run`, a failed move counting as
an additional error. -/
def processDetectResult (dry_run : Bool) (moveOk : FileName → Bool) :
    DetectStats × Dir → ResultDict → DetectStats × Dir :=
  fun sd r =>
    let stats := sd.1
    let dir := sd.2
    let filename := r.image_path
    if (r.error.getD "") ≠ "" then
      ({ stats with errors := stats.errors + 1 }, dir)
    else if r.has_human.getD true then
      ({ stats with with_human := stats.with_human + 1 }, dir)
    else
      let stats := { stats with no_human := stats.no_human + 1 }
      if dry_run then (stats, dir)
      else if moveOk filename then
        ({ stats with moved_files := stats.moved_files ++ [filename] },
         { root := dir.root.erase filename,
           quarantine := some (dir.quarantine.getD [] ++ [filename]) })
      else
        ({ stats with errors := stats.errors + 1 }, dir)

/-- The batch loop of `detect_and_organize_frames`: one
`analyze_images_batch` call per chunk (the environment supplies the `i`-th
call's outcome as `outcomes i`), then the per-result loop. -/
def runDetectBatches (outcomes : Nat → CallOutcome) (dry_run : Bool)
    (moveOk : FileName → Bool) :
    List (List FileName) → Nat → ClientState → DetectStats → Dir →
      DetectStats × Dir × ClientState
  | [], _, st, stats, dir => (stats, dir, st)
  | b :: bs, i, st, stats, dir =>
    let res := analyze_images_batch st b (outcomes i)
    let sd := res.2.foldl (processDetectResult dry_run moveOk) (stats, dir)
    runDetectBatches outcomes dry_run moveOk bs (i + 1) res.1 sd.1 sd.2

/-- `detect_and_organize_frames`: scan the directory (sorted, non-recursive,
case-insensitive image filter), return zeros on an empty scan, otherwise
create the `no-human` subfolder unless `dry_run` and run the batch loop. -/
def detect_and_organize_frames (dir : Dir) (client : ClientState)
    (outcomes : Nat → CallOutcome) (moveOk : FileName → Bool)
    (dry_run : Bool) : DetectStats × Dir × ClientState :=
  let all_frames := sortFiles (dir.root.filter isImageName)
  if all_frames = [] then
    ({ total := 0, with_human := 0, no_human := 0, errors := 0,
       moved_files := [] }, dir, client)
  else
    let dir1 : Dir :=
      if dry_run then dir
      else { dir with quarantine := some (dir.quarantine.getD []) }
    runDetectBatches outcomes dry_run moveOk (chunkList BATCH_SIZE all_frames) 0
      client
      { total := all_frames.length, with_human := 0, no_human := 0,
        errors := 0, moved_files := [] }
      dir1

/-- The restore fold shared by both restore functions: for each file of the
snapshot listing, move it back to the parent directory (a failed move is
logged and skipped). -/
def restoreFold (moveOk : FileName → Bool) :
    Nat × List FileName × List FileName → FileName →
      Nat × List FileName × List FileName :=
  fun acc f =>
    if moveOk f then (acc.1 + 1, acc.2.1 ++ [f], acc.2.2.erase f)
    else acc

/-- `restore_no_human_frames`: a missing quarantine subfolder returns zero;
otherwise the (case-sensitive!) image files of the subfolder are moved back
one by one, returning the number successfully moved. -/
def restore_no_human_frames (dir : Dir) (moveOk : FileName → Bool) :
    Nat × Dir :=
  match dir.quarantine with
  | none => (0, dir)
  | some q =>
    let files := q.filter isImageNameCS
    let out := files.foldl (restoreFold moveOk) (0, dir.root, q)
    (out.1, { root := out.2.1, quarantine := some out.2.2 })

/-! ### dataset_analyzer.py — `analyze_and_organize_frames` -/

/-- The statistics dictionary of `analyze_and_organize_frames` (and of
`analyze_and_filter_frames` in `image_analyzer.py`, which returns the same
keys). -/
structure SuitStats where
  total : Nat
  suitable : Nat
  not_suitable : Nat
  errors : Nat
  moved_files : List FileName
  deriving Repr, DecidableEq

/-- The per-result body of the suitability loop (reads `is_suitable`,
default `True`). -/
def processSuitResult (dry_run : Bool) (moveOk : FileName → Bool) :
    SuitStats × Dir → ResultDict → SuitStats × Dir :=
  fun sd r =>
    let stats := sd.1
    let dir := sd.2
    let filename := r.image_path
    if (r.error.getD "") ≠ "" then
      ({ stats with errors := stats.errors + 1 }, dir)
    else if r.is_suitable.getD true then
      ({ stats with suitable := stats.suitable + 1 }, dir)
    else
      let stats := { stats with not_suitable := stats.not_suitable + 1 }
      if dry_run then (stats, dir)
      else if moveOk filename then
        ({ stats with moved_files := stats.moved_files ++ [filename] },
         { root := dir.root.erase filename,
           quarantine := some (dir.quarantine.getD [] ++ [filename]) })
      else
        ({ stats with errors := stats.errors + 1 }, dir)

/-- The batch loop of `analyze_and_organize_frames`: one
`analyze_dataset_suitability_batch` call per chunk. -/
def runSuitBatches (outcomes : Nat → CallOutcome) (dry_run : Bool)
    (moveOk : FileName → Bool) :
    List (List FileName) → Nat → ClientState → SuitStats → Dir →
      SuitStats × Dir × ClientState
  | [], _, st, stats, dir => (stats, dir, st)
  | b :: bs, i, st, stats, dir =>
    let res := analyze_dataset_suitability_batch st b (outcomes i)
    let sd := res.2.foldl (processSuitResult dry_run moveOk) (stats, dir)
    runSuitBatches outcomes dry_run moveOk bs (i + 1) res.1 sd.1 sd.2

/-- `analyze_and_organize_frames` (`dataset_analyzer.py`): identical loop to
`detect_and_organize_frames` with the suitability adapter method, the
`is_suitable` field and the `not-suitable` quarantine name. -/
def analyze_and_organize_frames (dir : Dir) (client : ClientState)
    (outcomes : Nat → CallOutcome) (moveOk : FileName → Bool)
    (dry_run : Bool) : SuitStats × Dir × ClientState :=
  let all_frames := sortFiles (dir.root.filter isImageName)
  if all_frames = [] then
    ({ total := 0, suitable := 0, not_suitable := 0, errors := 0,
       moved_files := [] }, dir, client)
  else
    let dir1 : Dir :=
      if dry_run then dir
      else { dir with quarantine := some (dir.quarantine.getD []) }
    runSuitBatches outcomes dry_run moveOk (chunkList BATCH_SIZE all_frames) 0
      client
      { total := all_frames.length, suitable := 0, not_suitable := 0,
        errors := 0, moved_files := [] }
      dir1

/-- `restore_not_suitable_frames` (`dataset_analyzer.py`): same body as
`restore_no_human_frames` with the `not-suitable` folder name. -/
def restore_not_suitable_frames (dir : Dir) (moveOk : FileName → Bool) :
    Nat × Dir :=
  match dir.quarantine with
  | none => (0, dir)
  | some q =>
    let files := q.filter isImageNameCS
    let out := files.foldl (restoreFold moveOk) (0, dir.root, q)
    (out.1, { root := out.2.1, quarantine := some out.2.2 })

/-! ### image_analyzer.py — `analyze_and_filter_frames` -/

/-- The batch loop of `analyze_and_filter_frames`.  Note: the source calls
`groq_client.analyze_images_batch` (the human-detection method) and then reads
`result.get("is_suitable", True)` from its results. -/
def runFilterBatches (outcomes : Nat → CallOutcome) (dry_run : Bool)
    (moveOk : FileName → Bool) :
    List (List FileName) → Nat → ClientState → SuitStats → Dir →
      SuitStats × Dir × ClientState
  | [], _, st, stats, dir => (stats, dir, st)
  | b :: bs, i, st, stats, dir =>
    let res := analyze_images_batch st b (outcomes i)
    let sd := res.2.foldl (processSuitResult dry_run moveOk) (stats, dir)
    runFilterBatches outcomes dry_run moveOk bs (i + 1) res.1 sd.1 sd.2

/-- `analyze_and_filter_frames` (`image_analyzer.py`): the suitability loop
driven by `analyze_images_batch`, whose result dictionaries carry `has_human`
but never `is_suitable`. -/
def analyze_and_filter_frames (dir : Dir) (client : ClientState)
    (outcomes : Nat → CallOutcome) (moveOk : FileName → Bool)
    (dry_run : Bool) : SuitStats × Dir × ClientState :=
  let all_frames := sortFiles (dir.root.filter isImageName)
  if all_frames = [] then
    ({ total := 0, suitable := 0, not_suitable := 0, errors := 0,
       moved_files := [] }, dir, client)
  else
    let dir1 : Dir :=
      if dry_run then dir
      else { dir with quarantine := some (dir.quarantine.getD []) }
    runFilterBatches outcomes dry_run moveOk (chunkList BATCH_SIZE all_frames) 0
      client
      { total := all_frames.length, suitable := 0, not_suitable := 0,
        errors := 0, moved_files := [] }
      dir1

/-! ### frame_extractor.py -/

/-- A video as seen through `cv2.VideoCapture`: whether it opens, the
reported native frame rate, and how many frames sequential `read()` yields
before returning `ret = False`. -/
structure Video where
  openable : Bool
  fps : ℚ
  frames : Nat
  deriving Repr, DecidableEq

/-- Python `int()` on a number: truncation toward zero. -/
def pyInt (q : ℚ) : Int := if 0 ≤ q then ⌊q⌋ else ⌈q⌉

/-- Lines 44–46 of `frame_extractor.py`:
`frame_interval = int(fps * frame_interval_sec); if frame_interval < 1: 1`. -/
def stepFrames (fps : ℚ) (frame_interval_sec : ℚ) : Nat :=
  let fi := pyInt (fps * frame_interval_sec)
  if fi < 1 then 1 else fi.toNat

/-- The decimal digit characters of `n`, most significant first (no leading
zeros; empty for `0`, which the padding below turns into `"00000"`, matching
`"%05d" % 0`). -/
def digitsChars (n : Nat) : List Char :=
  ((Nat.digits 10 n).map Nat.digitChar).reverse

/-- `f"{n:05d}"`: zero-pad the decimal representation to width 5. -/
def pad5 (n : Nat) : List Char :=
  List.replicate (5 - (digitsChars n).length) '0' ++ digitsChars n

/-- `f"frame_{extracted_count:05d}.jpg"`. -/
def frameFileName (n : Nat) : FileName :=
  "frame_".toList ++ pad5 n ++ ".jpg".toList

/-- Line 49: count of existing `frame_*.jpg` files in the output directory
(`f.startswith("frame_") and f.endswith(".jpg")`). -/
def countFrames (d : List FileName) : Nat :=
  (d.filter fun f => "frame_".toList.isPrefixOf f &&
    ".jpg".toList.isSuffixOf f).length

/-- `cv2.imwrite`: creates the file, overwriting (membership unchanged) if a
file of that name already exists. -/
def writeFile (d : List FileName) (f : FileName) : List FileName :=
  if f ∈ d then d else d ++ [f]

/-- The `while True: cap.read()` loop of `extract_frames_from_video`:
`count` is the running frame index, `remaining` the frames the video still
yields, `ec` the `extracted_count` numbering cursor, `d` the output
directory listing.  Every `step`-th frame is written. -/
def extractLoop (step : Nat) :
    Nat → Nat → Nat → List FileName → List FileName × Nat
  | _, 0, ec, d => (d, ec)
  | count, remaining + 1, ec, d =>
    if count % step = 0 then
      extractLoop step (count + 1) remaining (ec + 1)
        (writeFile d (frameFileName ec))
    else
      extractLoop step (count + 1) remaining ec d

/-- `extract_frames_from_video`: an unopenable video extracts nothing;
otherwise numbering continues from the count of existing `frame_*.jpg` files
and every `stepFrames`-th frame is written.  Returns the count written by
this video and the new directory listing. -/
def extract_frames_from_video (d : List FileName) (v : Video)
    (frame_interval_sec : ℚ) : Nat × List FileName :=
  if v.openable = false then (0, d)
  else
    let step := stepFrames v.fps frame_interval_sec
    let existing := countFrames d
    let out := extractLoop step 0 v.frames existing d
    (out.2 - existing, out.1)

/-- `extract_frames_from_videos`: iterate the ordered list into one output
directory, accumulating the total.  (The source returns the directory path
and keeps the total in a local; we return both.  The empty-input early
return, `None` in the source, is modelled as the unchanged directory.) -/
def extract_frames_from_videos (d : List FileName) (videos : List Video)
    (frame_interval_sec : ℚ) : List FileName × Nat :=
  videos.foldl
    (fun acc v =>
      let out := extract_frames_from_video acc.1 v frame_interval_sec
      (out.2, acc.2 + out.1))
    (d, 0)

/-! ### utils.py — `get_video_prefix`

The two regexes
`r'^(.+?(?:Camera|IPCamera)\s+\d+)_\d{14}_\d{14}$'` and
`r'^(.+?(?:Camera|IPCamera)\s+\d+)'`
are embedded by their match semantics:

* the captured group is always a prefix of the subject, so only the end
  position of the group matters;
* `.` does not match a newline, so the lazy `.+?` region must be
  newline-free;
* for the anchored pattern the group end is forced to 30 characters before
  the anchor (`_` + 14 digits + `_` + 14 digits), and Python's `$` also
  matches just before one trailing newline;
* for the unanchored pattern the engine commits to the smallest end of the
  lazy region (and `\s+`, `\d+` are then forced, since a digit is not
  whitespace and the run of digits ends the match greedily).

Character classes `\s` and `\d` are modelled on their ASCII subsets. -/

/-- ASCII subset of Python's regex `\s`. -/
def isSpaceChar (c : Char) : Bool :=
  c = ' ' || c = '\t' || c = '\n' || c = '\r' || c = '\x0b' || c = '\x0c'

/-- Try the alternation `(?:Camera|IPCamera)` at offset `k`; returns the
matched marker's length. -/
def markerAt (cs : List Char) (k : Nat) : Option Nat :=
  if "Camera".toList.isPrefixOf (cs.drop k) then some 6
  else if "IPCamera".toList.isPrefixOf (cs.drop k) then some 8
  else none

/-- For the unanchored pattern: match `(?:Camera|IPCamera)\s+\d+` at offset
`k` and return the end offset of the group (whitespace and digit runs
maximal). -/
def tail2At (cs : List Char) (k : Nat) : Option Nat :=
  match markerAt cs k with
  | none => none
  | some m =>
    let j := ((cs.drop (k + m)).takeWhile isSpaceChar).length
    let d := ((cs.drop (k + m + j)).takeWhile Char.isDigit).length
    if 1 ≤ j ∧ 1 ≤ d then some (k + m + j + d) else none

/-- No newline among the first `k` characters (the region the lazy `.+?`
must cover, since `.` does not match a newline). -/
def noNl (cs : List Char) (k : Nat) : Bool := !(cs.take k).contains '\n'

/-- Least `k` with `start ≤ k < start + fuel` satisfying `p`: the order in
which a backtracking engine grows a lazy `.+?`. -/
def findLeast (p : Nat → Bool) : Nat → Nat → Option Nat
  | _, 0 => none
  | start, fuel + 1 =>
    if p start then some start else findLeast p (start + 1) fuel

/-- `re.match` with pattern 2 (`^(.+?(?:Camera|IPCamera)\s+\d+)`): the end of
the captured group, if any.  The lazy `.+?` makes the engine commit to the
least `k ≥ 1` at which the rest matches; the match fails if a newline
precedes that point. -/
def tier2 (cs : List Char) : Option Nat :=
  match findLeast (fun k => decide (k ≠ 0) && (tail2At cs k).isSome) 0
      cs.length with
  | none => none
  | some k => if noNl cs k then tail2At cs k else none

/-- Check `_\d{14}_\d{14}` against the final-30-character tail. -/
def isTsTail (t : List Char) : Bool :=
  match t with
  | '_' :: rest =>
    (rest.take 14).all Char.isDigit && rest.length == 29 &&
      (match rest.drop 14 with
       | '_' :: rest2 => rest2.all Char.isDigit
       | _ => false)
  | _ => false

/-- The effective end position of the subject for the `$` anchor: Python's
`$` (without `re.MULTILINE`) also matches just before one trailing
newline. -/
def dollarPos (cs : List Char) : Nat :=
  if cs.getLast? = some '\n' then cs.length - 1 else cs.length

/-- For the anchored pattern: does the lazy group succeed with its end at
`e := dollarPos cs - 30`, starting the marker at offset `k`? -/
def groupOkAt (cs : List Char) (k : Nat) : Bool :=
  let e := dollarPos cs - 30
  match markerAt cs k with
  | none => false
  | some m =>
    if k + m < e then
      let seg := (cs.drop (k + m)).take (e - (k + m))
      let j := (seg.takeWhile isSpaceChar).length
      decide (1 ≤ j) && !(seg.drop j).isEmpty &&
        (seg.drop j).all Char.isDigit && noNl cs k
    else false

/-- `re.match` with pattern 1 (the anchored `..._\d{14}_\d{14}$`):
whether a match exists.  The group is then `cs.take (dollarPos cs - 30)`. -/
def tier1Ok (cs : List Char) : Bool :=
  isTsTail ((cs.take (dollarPos cs)).drop (dollarPos cs - 30)) &&
    (List.range (dollarPos cs - 30)).any
      (fun k => decide (k ≠ 0) && groupOkAt cs k)

/-- `os.path.basename` (POSIX): everything after the last `'/'`. -/
def basenameOf (p : List Char) : List Char :=
  (p.reverse.takeWhile (fun c => c ≠ '/')).reverse

/-- `os.path.splitext(...)[0]` on a basename: cut at the last dot unless
every character before it is a dot (leading-dot files keep their name). -/
def splitextName (b : List Char) : List Char :=
  let rev := b.reverse
  let ext := rev.takeWhile (fun c => c ≠ '.')
  if ext.length = rev.length then b
  else
    let stem := b.take (b.length - ext.length - 1)
    if stem.all (fun c => c = '.') then b else stem

/-- `'^\d{14}$'` on an underscore-delimited segment. -/
def is14Digits (p : List Char) : Bool :=
  p.length == 14 && p.all Char.isDigit

/-- `get_video_prefix` (`utils.py`): strip path and extension, then the
three-tier match — anchored camera pattern, unanchored camera pattern, and
the split-at-first-timestamp fallback (which returns the whole name when no
segment precedes the first 14-digit segment). -/
def get_video_prefix (filename : List Char) : List Char :=
  let name := splitextName (basenameOf filename)
  if tier1Ok name then name.take (dollarPos name - 30)
  else
    match tier2 name with
    | some e => name.take e
    | none =>
      let parts := name.splitOn '_'
      let prefixParts := parts.takeWhile (fun p => !is14Digits p)
      if prefixParts.isEmpty then name
      else List.intercalate ['_'] prefixParts

/-! ### Spec-side auxiliary definitions (from the claims' wording) -/

/-- Modelled from the spec: Python's built-in `round` (round half to even),
which the spec's `stepFrames = max(1, round(nativeFrameRate *
intervalSeconds))` refers to; the source instead truncates with `int()`. -/
def pyRound (q : ℚ) : Int :=
  let f := ⌊q⌋
  let r := q - f
  if r < 1 / 2 then f
  else if 1 / 2 < r then f + 1
  else if Even f then f else f + 1

/-- Decimal evaluation of a character list (leading zeros are harmless);
used to show the zero-padded frame names are collision-free. -/
def parseNat (l : List Char) : Nat :=
  l.foldl (fun acc c => 10 * acc + (c.toNat - 48)) 0

/-- The number of frame indices the extraction loop selects while `count`
runs over the next `remaining` frames. -/
def countSel (step : Nat) : Nat → Nat → Nat
  | _, 0 => 0
  | count, remaining + 1 =>
    (if count % step = 0 then 1 else 0) + countSel step (count + 1) remaining

/-- A camera marker as written in the regexes' alternation. -/
def Marker (mk : List Char) : Prop :=
  mk = "Camera".toList ∨ mk = "IPCamera".toList

/-- Declaratively: `g` is a "text through the camera index" — at least one
character (none a newline) for the lazy `.+?`, a camera marker, at least one
whitespace, and the numeric camera index. -/
def CamIdxEnd (g : List Char) : Prop :=
  ∃ p mk ws ds, g = p ++ (mk ++ (ws ++ ds)) ∧ p ≠ [] ∧ '\n' ∉ p ∧
    Marker mk ∧ ws ≠ [] ∧ (∀ c ∈ ws, isSpaceChar c = true) ∧
    ds ≠ [] ∧ (∀ c ∈ ds, Char.isDigit c = true)

/-- Declaratively: `name` is a camera-index text followed by two 14-digit
timestamps separated by underscores, ending the name (up to the one trailing
newline Python's `$` tolerates). -/
def Tier1Shape (name g t1 t2 nl : List Char) : Prop :=
  name = g ++ '_' :: (t1 ++ '_' :: (t2 ++ nl)) ∧ CamIdxEnd g ∧
    t1.length = 14 ∧ (∀ c ∈ t1, Char.isDigit c = true) ∧
    t2.length = 14 ∧ (∀ c ∈ t2, Char.isDigit c = true) ∧
    (nl = [] ∨ nl = ['\n'])

/-- The first tier's declarative condition. -/
def Tier1Cond (name : List Char) : Prop :=
  ∃ g t1 t2 nl, Tier1Shape name g t1 t2 nl

/-- The second tier's declarative condition: some prefix of the name is a
camera-index text. -/
def Tier2Cond (name : List Char) : Prop :=
  ∃ g rest, name = g ++ rest ∧ CamIdxEnd g

/-! ### Counterexamples -/

/-- C1: the claimed invariant `accept + reject + error == total` fails for a
move-failure pattern: one frame, verdict REJECT, `shutil.move` fails — the
frame is counted once in `no_human` and once more in `errors`, so the sum is
2 on a directory of 1 frame. -/
theorem C1_counterexample :
    let out := detect_and_organize_frames ⟨["a.jpg".toList], none⟩ ⟨2, 0, 0⟩
      (fun _ => .ok [⟨some false, none, none⟩]) (fun _ => false) false
    ¬ (out.1.with_human + out.1.no_human + out.1.errors = out.1.total) := by
  decide

/-- C2: with an oracle whose transport call always raises, 7 frames do not
yield `accept == 7, error == 0` as claimed: the engine counts every
error-carrying fail-open verdict as an error (`with_human = 0`,
`errors = 7`). -/
theorem C2_counterexample :
    let out := detect_and_organize_frames
      ⟨["a.jpg".toList, "b.jpg".toList, "c.jpg".toList, "d.jpg".toList,
        "e.jpg".toList, "f.jpg".toList, "g.jpg".toList], none⟩
      ⟨2, 0, 0⟩ (fun _ => .raise "boom") (fun _ => true) false
    out.1.total = 7 ∧ out.1.with_human = 0 ∧ out.1.errors = 7 ∧
      ¬ (out.1.with_human = 7 ∧ out.1.errors = 0) := by
  decide

/-- C4: `restore` after `triage` does not return the directory to its
pre-triage membership for the file `A.JPG`: the triage scan is
case-insensitive and quarantines it, but the restore filter is
case-sensitive (`f.endswith`), so the file stays quarantined and the restored
count is 0. -/
theorem C4_counterexample :
    let dir : Dir := ⟨["A.JPG".toList], none⟩
    let out := detect_and_organize_frames dir ⟨2, 0, 0⟩
      (fun _ => .ok [⟨some false, none, none⟩]) (fun _ => true) false
    let rr := restore_no_human_frames out.2.1 (fun _ => true)
    out.1.moved_files = ["A.JPG".toList] ∧ rr.1 = 0 ∧ rr.2.root = [] ∧
      ¬ (rr.2.root = dir.root) := by
  decide

/-- C6: a batch call whose remote request raises does not advance the
model-rotation cursor: `_rotate_model` is only reached after
`chat.completions.create` returns.  The claim's "regardless of whether the
remote call succeeds or raises" is false. -/
theorem C6_counterexample :
    let st : ClientState := ⟨2, 0, 0⟩
    (analyze_images_batch st ["a.jpg".toList] (.raise "x")).1 = st ∧
      st.current_model_idx ≠ (st.current_model_idx + 1) % st.numModels := by
  decide

/-- Arithmetic for the `fps = 29/10` scenario: the code's truncating step. -/
lemma stepFrames_29_10 : stepFrames (29 / 10) 1 = 2 := by
  have h1 : ((29 : ℚ) / 10 * 1) = 29 / 10 := by ring
  have h2 : (0 : ℚ) ≤ 29 / 10 := by norm_num
  have h3 : ⌊(29 : ℚ) / 10⌋ = 2 := by
    rw [Int.floor_eq_iff]
    norm_num
  simp only [stepFrames, pyInt, h1, h2, if_pos, h3]
  decide

/-- C7: the sampling step is `int(fps * interval)` (truncation toward zero),
not `max(1, round(...))`: at `fps = 29/10`, `interval = 1` the code uses step
2 (extracting 2 of 3 frames) while the claimed rounding gives step 3. -/
theorem C7_counterexample :
    stepFrames (29 / 10) 1 = 2 ∧
      max 1 (pyRound ((29 : ℚ) / 10 * 1)) = 3 ∧
      (extract_frames_from_video [] ⟨true, 29 / 10, 3⟩ 1).1 = 2 ∧
      (2 : Int) ≠ 3 := by
  refine ⟨stepFrames_29_10, ?_, ?_, by decide⟩
  · have h1 : ((29 : ℚ) / 10 * 1) = 29 / 10 := by ring
    have h3 : ⌊(29 : ℚ) / 10⌋ = 2 := by
      rw [Int.floor_eq_iff]
      norm_num
    have h4 : ((29 : ℚ) / 10) - 2 = 9 / 10 := by norm_num
    simp only [pyRound, h1, h3]
    rw [show ((2 : Int) : ℚ) = 2 by norm_num, h4]
    norm_num
  · simp only [extract_frames_from_video, stepFrames_29_10]
    decide

/-- C8: the third tier does not return the empty join when the first
underscore segment is itself the first 14-digit segment: on
`20250101000000.mp4` the claimed key is the underscore-join of the segments
strictly before the first 14-digit segment, i.e. the empty string, but the
code falls back to the whole extension-less name. -/
theorem C8_counterexample :
    let name := splitextName (basenameOf "20250101000000.mp4".toList)
    tier1Ok name = false ∧ tier2 name = none ∧
      (name.splitOn '_').takeWhile (fun p => !is14Digits p) = [] ∧
      get_video_prefix "20250101000000.mp4".toList = name ∧
      name ≠ List.intercalate ['_']
        ((name.splitOn '_').takeWhile (fun p => !is14Digits p)) := by
  decide

/-- C9: `analyze_and_filter_frames` is not the same engine as the other two
triages: it reads `is_suitable` from `analyze_images_batch` results, which
never carry that field, so with positionally identical verdicts (one frame,
oracle entry `has_human = false, is_suitable = false`) the two organize
functions quarantine the frame while `analyze_and_filter_frames` counts it
suitable and moves nothing — contradicting its own docstring ("Images not
suitable ... are moved to 'not-suitable/' subfolder"). -/
theorem C9_code_bug :
    let dir : Dir := ⟨["a.jpg".toList], none⟩
    let oc := fun _ : Nat => CallOutcome.ok [⟨some false, none, some false⟩]
    let det := detect_and_organize_frames dir ⟨2, 0, 0⟩ oc (fun _ => true) false
    let org := analyze_and_organize_frames dir ⟨2, 0, 0⟩ oc (fun _ => true) false
    let fil := analyze_and_filter_frames dir ⟨2, 0, 0⟩ oc (fun _ => true) false
    det.1.no_human = 1 ∧ det.1.moved_files = ["a.jpg".toList] ∧
      det.2.1.root = [] ∧
      org.1.not_suitable = 1 ∧ org.1.moved_files = ["a.jpg".toList] ∧
      org.2.1.root = [] ∧
      fil.1.suitable = 1 ∧ fil.1.not_suitable = 0 ∧ fil.1.errors = 0 ∧
      fil.1.moved_files = [] ∧ fil.2.1.root = ["a.jpg".toList] := by
  decide

/-! ### Chunking lemmas -/

lemma chunkGo_congr {B : Nat} (hB : B ≠ 0) :
    ∀ f1 f2 (l : List FileName), l.length ≤ f1 → l.length ≤ f2 →
      chunkGo B f1 l = chunkGo B f2 l := by
  intro f1
  induction f1 with
  | zero =>
    intro f2 l h1 _
    have : l = [] := List.eq_nil_of_length_eq_zero (Nat.le_zero.mp h1)
    subst this
    cases f2 <;> rfl
  | succ n ih =>
    intro f2 l h1 h2
    cases l with
    | nil => cases f2 <;> rfl
    | cons x xs =>
      cases f2 with
      | zero => simp at h2
      | succ m =>
        simp only [chunkGo]
        congr 1
        apply ih
        · simp only [List.length_drop, List.length_cons] at *
          omega
        · simp only [List.length_drop, List.length_cons] at *
          omega

lemma chunkList_nil {B : Nat} : chunkList B [] = [] := rfl

lemma chunkList_cons {B : Nat} (hB : B ≠ 0) (x : FileName)
    (xs : List FileName) :
    chunkList B (x :: xs) =
      (x :: xs).take B :: chunkList B ((x :: xs).drop B) := by
  simp only [chunkList, List.length_cons, chunkGo]
  congr 1
  apply chunkGo_congr hB
  · simp only [List.length_drop, List.length_cons]
    omega
  · exact le_rfl

lemma chunkList_flatten {B : Nat} (hB : B ≠ 0) :
    ∀ (n : Nat) (l : List FileName), l.length ≤ n →
      (chunkList B l).flatten = l := by
  intro n
  induction n with
  | zero =>
    intro l h
    have : l = [] := List.eq_nil_of_length_eq_zero (Nat.le_zero.mp h)
    subst this
    rfl
  | succ n ih =>
    intro l h
    cases l with
    | nil => rfl
    | cons x xs =>
      have hlen : ((x :: xs).drop B).length ≤ n := by
        simp only [List.length_drop, List.length_cons] at *
        omega
      rw [chunkList_cons hB, List.flatten_cons, ih ((x :: xs).drop B) hlen]
      exact List.take_append_drop B (x :: xs)

lemma chunkList_mem {B : Nat} (hB : B ≠ 0) :
    ∀ (n : Nat) (l : List FileName), l.length ≤ n →
      ∀ b ∈ chunkList B l, b ≠ [] ∧ b.length ≤ B := by
  intro n
  induction n with
  | zero =>
    intro l h b hb
    have : l = [] := List.eq_nil_of_length_eq_zero (Nat.le_zero.mp h)
    subst this
    simp [chunkList_nil] at hb
  | succ n ih =>
    intro l h b hb
    cases l with
    | nil => simp [chunkList_nil] at hb
    | cons x xs =>
      rw [chunkList_cons hB] at hb
      rcases List.mem_cons.mp hb with h1 | h1
      · subst h1
        refine ⟨?_, by simp⟩
        intro h'
        rw [List.take_eq_nil_iff] at h'
        rcases h' with h' | h' <;> simp_all
      · have hlen : ((x :: xs).drop B).length ≤ n := by
          simp only [List.length_drop, List.length_cons] at *
          omega
        exact ih _ hlen b h1

/-! ### Sorting lemmas -/

lemma insertFile_perm (f : FileName) :
    ∀ l : List FileName, (insertFile f l).Perm (f :: l) := by
  intro l
  induction l with
  | nil => simp [insertFile]
  | cons g gs ih =>
    simp only [insertFile]
    split
    · exact List.Perm.refl _
    · exact (List.Perm.cons g ih).trans (List.Perm.swap f g gs)

lemma sortFiles_perm (l : List FileName) : (sortFiles l).Perm l := by
  induction l with
  | nil => simp [sortFiles]
  | cons x xs ih =>
    simp only [sortFiles, List.foldr_cons]
    exact (insertFile_perm x _).trans (List.Perm.cons x ih)

lemma mem_sortFiles {l : List FileName} {f : FileName} :
    f ∈ sortFiles l ↔ f ∈ l :=
  (sortFiles_perm l).mem_iff

lemma sortFiles_nodup {l : List FileName} (h : l.Nodup) :
    (sortFiles l).Nodup :=
  ((sortFiles_perm l).symm.nodup h)

/-! ### Oracle adapter lemmas -/

lemma analyze_images_batch_map_path (st : ClientState) (b : List FileName)
    (o : CallOutcome) (hlen : b.length ≤ BATCH_SIZE) :
    ((analyze_images_batch st b o).2).map (·.image_path) = b := by
  by_cases hb : b = []
  · subst hb
    simp [analyze_images_batch]
  · simp only [analyze_images_batch, if_neg hb]
    have htake : b.take BATCH_SIZE = b := List.take_of_length_le hlen
    cases o with
    | raise e =>
      simp only [htake, List.map_map]
      exact List.map_id b
    | parseError e =>
      simp only [htake, List.map_map]
      exact List.map_id b
    | ok images =>
      simp only [htake, List.map_map]
      refine (List.map_congr_left ?_).trans (List.enum_map_snd b)
      intro ip _
      rcases hg : images.get? ip.1 with _ | entry <;>
        simp only [Function.comp_apply, hg]

lemma analyze_suit_batch_map_path (st : ClientState) (b : List FileName)
    (o : CallOutcome) (hlen : b.length ≤ BATCH_SIZE) :
    ((analyze_dataset_suitability_batch st b o).2).map (·.image_path) = b := by
  by_cases hb : b = []
  · subst hb
    simp [analyze_dataset_suitability_batch]
  · simp only [analyze_dataset_suitability_batch, if_neg hb]
    have htake : b.take BATCH_SIZE = b := List.take_of_length_le hlen
    cases o with
    | raise e =>
      simp only [htake, List.map_map]
      exact List.map_id b
    | parseError e =>
      simp only [htake, List.map_map]
      exact List.map_id b
    | ok images =>
      simp only [htake, List.map_map]
      refine (List.map_congr_left ?_).trans (List.enum_map_snd b)
      intro ip _
      rcases hg : images.get? ip.1 with _ | entry <;>
        simp only [Function.comp_apply, hg]

lemma analyze_images_batch_length (st : ClientState) (b : List FileName)
    (o : CallOutcome) (hlen : b.length ≤ BATCH_SIZE) :
    ((analyze_images_batch st b o).2).length = b.length := by
  have := analyze_images_batch_map_path st b o hlen
  calc ((analyze_images_batch st b o).2).length
      = (((analyze_images_batch st b o).2).map (·.image_path)).length :=
        (List.length_map _ _).symm
    _ = b.length := by rw [this]

lemma analyze_suit_batch_length (st : ClientState) (b : List FileName)
    (o : CallOutcome) (hlen : b.length ≤ BATCH_SIZE) :
    ((analyze_dataset_suitability_batch st b o).2).length = b.length := by
  have := analyze_suit_batch_map_path st b o hlen
  calc ((analyze_dataset_suitability_batch st b o).2).length
      = (((analyze_dataset_suitability_batch st b o).2).map
          (·.image_path)).length := (List.length_map _ _).symm
    _ = b.length := by rw [this]

lemma analyze_images_batch_raise (st : ClientState) (b : List FileName)
    (e : String) :
    (analyze_images_batch st b (.raise e)).1 = st ∧
      ∀ r ∈ (analyze_images_batch st b (.raise e)).2, r.error = some e := by
  by_cases hb : b = []
  · subst hb
    simp [analyze_images_batch]
  · simp only [analyze_images_batch, if_neg hb]
    refine ⟨trivial, ?_⟩
    intro r hr
    rcases List.mem_map.mp hr with ⟨p, _, hp⟩
    rw [← hp]

/-! ### Count bookkeeping (C1) -/

lemma processDetectResult_counts (dry_run : Bool) (moveOk : FileName → Bool)
    (h : dry_run = true ∨ ∀ f, moveOk f = true) (stats : DetectStats)
    (dir : Dir) (r : ResultDict) :
    (processDetectResult dry_run moveOk (stats, dir) r).1.with_human +
        (processDetectResult dry_run moveOk (stats, dir) r).1.no_human +
        (processDetectResult dry_run moveOk (stats, dir) r).1.errors =
      stats.with_human + stats.no_human + stats.errors + 1 ∧
    (processDetectResult dry_run moveOk (stats, dir) r).1.total =
      stats.total := by
  simp only [processDetectResult]
  split_ifs with h1 h2 h3 h4
  · exact ⟨by simp; omega, rfl⟩
  · exact ⟨by simp; omega, rfl⟩
  · exact ⟨by simp; omega, rfl⟩
  · exact ⟨by simp; omega, rfl⟩
  · exfalso
    rcases h with h | h
    · exact h3 h
    · exact h4 (h r.image_path)

lemma foldDetect_counts (dry_run : Bool) (moveOk : FileName → Bool)
    (h : dry_run = true ∨ ∀ f, moveOk f = true) :
    ∀ (rs : List ResultDict) (stats : DetectStats) (dir : Dir),
      (rs.foldl (processDetectResult dry_run moveOk) (stats, dir)).1.with_human +
          (rs.foldl (processDetectResult dry_run moveOk) (stats, dir)).1.no_human +
          (rs.foldl (processDetectResult dry_run moveOk) (stats, dir)).1.errors =
        stats.with_human + stats.no_human + stats.errors + rs.length ∧
      (rs.foldl (processDetectResult dry_run moveOk) (stats, dir)).1.total =
        stats.total := by
  intro rs
  induction rs with
  | nil => intro stats dir; simp
  | cons r rs ih =>
    intro stats dir
    simp only [List.foldl_cons, List.length_cons]
    obtain ⟨hc, ht⟩ := processDetectResult_counts dry_run moveOk h stats dir r
    obtain ⟨hc', ht'⟩ := ih (processDetectResult dry_run moveOk (stats, dir) r).1
      (processDetectResult dry_run moveOk (stats, dir) r).2
    rw [Prod.mk.eta] at hc' ht'
    refine ⟨?_, ht'.trans ht⟩
    rw [hc', hc]
    omega

lemma runDetect_counts (outcomes : Nat → CallOutcome) (dry_run : Bool)
    (moveOk : FileName → Bool)
    (h : dry_run = true ∨ ∀ f, moveOk f = true) :
    ∀ (bs : List (List FileName)) (i : Nat) (st : ClientState)
      (stats : DetectStats) (dir : Dir),
      (∀ b ∈ bs, b ≠ [] ∧ b.length ≤ BATCH_SIZE) →
      (runDetectBatches outcomes dry_run moveOk bs i st stats dir).1.with_human +
          (runDetectBatches outcomes dry_run moveOk bs i st stats dir).1.no_human +
          (runDetectBatches outcomes dry_run moveOk bs i st stats dir).1.errors =
        stats.with_human + stats.no_human + stats.errors +
          (bs.map List.length).sum ∧
      (runDetectBatches outcomes dry_run moveOk bs i st stats dir).1.total =
        stats.total := by
  intro bs
  induction bs with
  | nil => intro i st stats dir _; simp [runDetectBatches]
  | cons b bs ih =>
    intro i st stats dir hb
    obtain ⟨hbne, hble⟩ := hb b (List.mem_cons_self b bs)
    simp only [runDetectBatches, List.map_cons, List.sum_cons]
    obtain ⟨hc, ht⟩ := ih (i + 1) (analyze_images_batch st b (outcomes i)).1
      ((analyze_images_batch st b (outcomes i)).2.foldl
        (processDetectResult dry_run moveOk) (stats, dir)).1
      ((analyze_images_batch st b (outcomes i)).2.foldl
        (processDetectResult dry_run moveOk) (stats, dir)).2
      (fun b' hb' => hb b' (List.mem_cons_of_mem b hb'))
    obtain ⟨hc2, ht2⟩ := foldDetect_counts dry_run moveOk h
      (analyze_images_batch st b (outcomes i)).2 stats dir
    rw [analyze_images_batch_length st b (outcomes i) hble] at hc2
    refine ⟨?_, ?_⟩
    · rw [hc, hc2]
      omega
    · rw [ht, ht2]

lemma processSuitResult_counts (dry_run : Bool) (moveOk : FileName → Bool)
    (h : dry_run = true ∨ ∀ f, moveOk f = true) (stats : SuitStats)
    (dir : Dir) (r : ResultDict) :
    (processSuitResult dry_run moveOk (stats, dir) r).1.suitable +
        (processSuitResult dry_run moveOk (stats, dir) r).1.not_suitable +
        (processSuitResult dry_run moveOk (stats, dir) r).1.errors =
      stats.suitable + stats.not_suitable + stats.errors + 1 ∧
    (processSuitResult dry_run moveOk (stats, dir) r).1.total =
      stats.total := by
  simp only [processSuitResult]
  split_ifs with h1 h2 h3 h4
  · exact ⟨by simp; omega, rfl⟩
  · exact ⟨by simp; omega, rfl⟩
  · exact ⟨by simp; omega, rfl⟩
  · exact ⟨by simp; omega, rfl⟩
  · exfalso
    rcases h with h | h
    · exact h3 h
    · exact h4 (h r.image_path)

lemma foldSuit_counts (dry_run : Bool) (moveOk : FileName → Bool)
    (h : dry_run = true ∨ ∀ f, moveOk f = true) :
    ∀ (rs : List ResultDict) (stats : SuitStats) (dir : Dir),
      (rs.foldl (processSuitResult dry_run moveOk) (stats, dir)).1.suitable +
          (rs.foldl (processSuitResult dry_run moveOk) (stats, dir)).1.not_suitable +
          (rs.foldl (processSuitResult dry_run moveOk) (stats, dir)).1.errors =
        stats.suitable + stats.not_suitable + stats.errors + rs.length ∧
      (rs.foldl (processSuitResult dry_run moveOk) (stats, dir)).1.total =
        stats.total := by
  intro rs
  induction rs with
  | nil => intro stats dir; simp
  | cons r rs ih =>
    intro stats dir
    simp only [List.foldl_cons, List.length_cons]
    obtain ⟨hc, ht⟩ := processSuitResult_counts dry_run moveOk h stats dir r
    obtain ⟨hc', ht'⟩ := ih (processSuitResult dry_run moveOk (stats, dir) r).1
      (processSuitResult dry_run moveOk (stats, dir) r).2
    rw [Prod.mk.eta] at hc' ht'
    refine ⟨?_, ht'.trans ht⟩
    rw [hc', hc]
    omega

lemma runSuit_counts (outcomes : Nat → CallOutcome) (dry_run : Bool)
    (moveOk : FileName → Bool)
    (h : dry_run = true ∨ ∀ f, moveOk f = true) :
    ∀ (bs : List (List FileName)) (i : Nat) (st : ClientState)
      (stats : SuitStats) (dir : Dir),
      (∀ b ∈ bs, b ≠ [] ∧ b.length ≤ BATCH_SIZE) →
      (runSuitBatches outcomes dry_run moveOk bs i st stats dir).1.suitable +
          (runSuitBatches outcomes dry_run moveOk bs i st stats dir).1.not_suitable +
          (runSuitBatches outcomes dry_run moveOk bs i st stats dir).1.errors =
        stats.suitable + stats.not_suitable + stats.errors +
          (bs.map List.length).sum ∧
      (runSuitBatches outcomes dry_run moveOk bs i st stats dir).1.total =
        stats.total := by
  intro bs
  induction bs with
  | nil => intro i st stats dir _; simp [runSuitBatches]
  | cons b bs ih =>
    intro i st stats dir hb
    obtain ⟨hbne, hble⟩ := hb b (List.mem_cons_self b bs)
    simp only [runSuitBatches, List.map_cons, List.sum_cons]
    obtain ⟨hc, ht⟩ := ih (i + 1)
      (analyze_dataset_suitability_batch st b (outcomes i)).1
      ((analyze_dataset_suitability_batch st b (outcomes i)).2.foldl
        (processSuitResult dry_run moveOk) (stats, dir)).1
      ((analyze_dataset_suitability_batch st b (outcomes i)).2.foldl
        (processSuitResult dry_run moveOk) (stats, dir)).2
      (fun b' hb' => hb b' (List.mem_cons_of_mem b hb'))
    obtain ⟨hc2, ht2⟩ := foldSuit_counts dry_run moveOk h
      (analyze_dataset_suitability_batch st b (outcomes i)).2 stats dir
    rw [analyze_suit_batch_length st b (outcomes i) hble] at hc2
    refine ⟨?_, ?_⟩
    · rw [hc, hc2]
      omega
    · rw [ht, ht2]

/-- The chunks of the scan cover it exactly and are well-sized. -/
lemma chunk_facts (l : List FileName) :
    (chunkList BATCH_SIZE l).flatten = l ∧
      (∀ b ∈ chunkList BATCH_SIZE l, b ≠ [] ∧ b.length ≤ BATCH_SIZE) :=
  ⟨chunkList_flatten (by decide) l.length l le_rfl,
   chunkList_mem (by decide) l.length l le_rfl⟩

/-- C1 (amended): the report satisfies `accept + reject + error == total`
whenever every attempted move succeeds — in particular always in dry-run
mode.  (As stated over arbitrary move-failure patterns the claim is false,
see the counterexample: a failed move double-counts its frame, once as a
reject and once as an error.)  This holds for both triage engines. -/
theorem C1_amended (dir : Dir) (client : ClientState)
    (outcomes : Nat → CallOutcome) (moveOk : FileName → Bool)
    (dry_run : Bool) (h : dry_run = true ∨ ∀ f, moveOk f = true) :
    ((detect_and_organize_frames dir client outcomes moveOk dry_run).1.with_human +
        (detect_and_organize_frames dir client outcomes moveOk dry_run).1.no_human +
        (detect_and_organize_frames dir client outcomes moveOk dry_run).1.errors =
      (detect_and_organize_frames dir client outcomes moveOk dry_run).1.total) ∧
    ((analyze_and_organize_frames dir client outcomes moveOk dry_run).1.suitable +
        (analyze_and_organize_frames dir client outcomes moveOk dry_run).1.not_suitable +
        (analyze_and_organize_frames dir client outcomes moveOk dry_run).1.errors =
      (analyze_and_organize_frames dir client outcomes moveOk dry_run).1.total) := by
  obtain ⟨hflat, hmem⟩ := chunk_facts (sortFiles (dir.root.filter isImageName))
  have hsum : ((chunkList BATCH_SIZE
      (sortFiles (dir.root.filter isImageName))).map List.length).sum =
      (sortFiles (dir.root.filter isImageName)).length := by
    rw [← List.length_flatten, hflat]
  constructor
  · have main : ∀ d1 : Dir,
        (runDetectBatches outcomes dry_run moveOk
            (chunkList BATCH_SIZE (sortFiles (dir.root.filter isImageName)))
            0 client
            { total := (sortFiles (dir.root.filter isImageName)).length,
              with_human := 0, no_human := 0, errors := 0,
              moved_files := [] } d1).1.with_human +
          (runDetectBatches outcomes dry_run moveOk
            (chunkList BATCH_SIZE (sortFiles (dir.root.filter isImageName)))
            0 client
            { total := (sortFiles (dir.root.filter isImageName)).length,
              with_human := 0, no_human := 0, errors := 0,
              moved_files := [] } d1).1.no_human +
          (runDetectBatches outcomes dry_run moveOk
            (chunkList BATCH_SIZE (sortFiles (dir.root.filter isImageName)))
            0 client
            { total := (sortFiles (dir.root.filter isImageName)).length,
              with_human := 0, no_human := 0, errors := 0,
              moved_files := [] } d1).1.errors =
          (runDetectBatches outcomes dry_run moveOk
            (chunkList BATCH_SIZE (sortFiles (dir.root.filter isImageName)))
            0 client
            { total := (sortFiles (dir.root.filter isImageName)).length,
              with_human := 0, no_human := 0, errors := 0,
              moved_files := [] } d1).1.total := by
      intro d1
      obtain ⟨hc, ht⟩ := runDetect_counts outcomes dry_run moveOk h
        (chunkList BATCH_SIZE (sortFiles (dir.root.filter isImageName)))
        0 client
        { total := (sortFiles (dir.root.filter isImageName)).length,
          with_human := 0, no_human := 0, errors := 0, moved_files := [] }
        d1 hmem
      rw [hc, ht]
      simp [hsum]
    simp only [detect_and_organize_frames]
    split_ifs with he hd
    · rfl
    · exact main dir
    · exact main _
  · have main : ∀ d1 : Dir,
        (runSuitBatches outcomes dry_run moveOk
            (chunkList BATCH_SIZE (sortFiles (dir.root.filter isImageName)))
            0 client
            { total := (sortFiles (dir.root.filter isImageName)).length,
              suitable := 0, not_suitable := 0, errors := 0,
              moved_files := [] } d1).1.suitable +
          (runSuitBatches outcomes dry_run moveOk
            (chunkList BATCH_SIZE (sortFiles (dir.root.filter isImageName)))
            0 client
            { total := (sortFiles (dir.root.filter isImageName)).length,
              suitable := 0, not_suitable := 0, errors := 0,
              moved_files := [] } d1).1.not_suitable +
          (runSuitBatches outcomes dry_run moveOk
            (chunkList BATCH_SIZE (sortFiles (dir.root.filter isImageName)))
            0 client
            { total := (sortFiles (dir.root.filter isImageName)).length,
              suitable := 0, not_suitable := 0, errors := 0,
              moved_files := [] } d1).1.errors =
          (runSuitBatches outcomes dry_run moveOk
            (chunkList BATCH_SIZE (sortFiles (dir.root.filter isImageName)))
            0 client
            { total := (sortFiles (dir.root.filter isImageName)).length,
              suitable := 0, not_suitable := 0, errors := 0,
              moved_files := [] } d1).1.total := by
      intro d1
      obtain ⟨hc, ht⟩ := runSuit_counts outcomes dry_run moveOk h
        (chunkList BATCH_SIZE (sortFiles (dir.root.filter isImageName)))
        0 client
        { total := (sortFiles (dir.root.filter isImageName)).length,
          suitable := 0, not_suitable := 0, errors := 0, moved_files := [] }
        d1 hmem
      rw [hc, ht]
      simp [hsum]
    simp only [analyze_and_organize_frames]
    split_ifs with he hd
    · rfl
    · exact main dir
    · exact main _

/-- C1 witness: the amended invariant evaluated on a concrete directory of
two frames with one rejected and every move succeeding. -/
theorem C1_witness :
    ((false : Bool) = true ∨ ∀ f : FileName, (fun _ => true) f = true) ∧
      ((detect_and_organize_frames ⟨["a.jpg".toList, "b.jpg".toList], none⟩
          ⟨2, 0, 0⟩ (fun _ => .ok [⟨some false, none, none⟩, ⟨some true, none, none⟩])
          (fun _ => true) false).1.with_human +
        (detect_and_organize_frames ⟨["a.jpg".toList, "b.jpg".toList], none⟩
          ⟨2, 0, 0⟩ (fun _ => .ok [⟨some false, none, none⟩, ⟨some true, none, none⟩])
          (fun _ => true) false).1.no_human +
        (detect_and_organize_frames ⟨["a.jpg".toList, "b.jpg".toList], none⟩
          ⟨2, 0, 0⟩ (fun _ => .ok [⟨some false, none, none⟩, ⟨some true, none, none⟩])
          (fun _ => true) false).1.errors =
        (detect_and_organize_frames ⟨["a.jpg".toList, "b.jpg".toList], none⟩
          ⟨2, 0, 0⟩ (fun _ => .ok [⟨some false, none, none⟩, ⟨some true, none, none⟩])
          (fun _ => true) false).1.total) :=
  ⟨Or.inr fun _ => rfl,
    (C1_amended ⟨["a.jpg".toList, "b.jpg".toList], none⟩ ⟨2, 0, 0⟩
      (fun _ => .ok [⟨some false, none, none⟩, ⟨some true, none, none⟩])
      (fun _ => true) false (Or.inr fun _ => rfl)).1⟩

/-! ### Fail-open behaviour at the engine (C2) -/

lemma foldDetect_errors (dry_run : Bool) (moveOk : FileName → Bool) :
    ∀ (rs : List ResultDict) (stats : DetectStats) (dir : Dir),
      (∀ r ∈ rs, ∃ e, r.error = some e ∧ e ≠ "") →
      rs.foldl (processDetectResult dry_run moveOk) (stats, dir) =
        ({ stats with errors := stats.errors + rs.length }, dir) := by
  intro rs
  induction rs with
  | nil => intro stats dir _; simp
  | cons r rs ih =>
    intro stats dir hrs
    obtain ⟨e, he, hne⟩ := hrs r (List.mem_cons_self r rs)
    have hstep : processDetectResult dry_run moveOk (stats, dir) r =
        ({ stats with errors := stats.errors + 1 }, dir) := by
      simp only [processDetectResult, he]
      rw [if_pos (by simpa using hne)]
    simp only [List.foldl_cons, hstep,
      ih _ dir (fun r' hr' => hrs r' (List.mem_cons_of_mem r hr'))]
    simp only [List.length_cons]
    have harith : stats.errors + 1 + rs.length = stats.errors + (rs.length + 1) := by
      omega
    simp [harith]

lemma runDetect_raise (outcomes : Nat → CallOutcome) (dry_run : Bool)
    (moveOk : FileName → Bool)
    (h : ∀ i, ∃ e, outcomes i = .raise e ∧ e ≠ "") :
    ∀ (bs : List (List FileName)) (i : Nat) (st : ClientState)
      (stats : DetectStats) (dir : Dir),
      (∀ b ∈ bs, b ≠ [] ∧ b.length ≤ BATCH_SIZE) →
      runDetectBatches outcomes dry_run moveOk bs i st stats dir =
        ({ stats with errors := stats.errors + (bs.map List.length).sum },
          dir, st) := by
  intro bs
  induction bs with
  | nil => intro i st stats dir _; simp [runDetectBatches]
  | cons b bs ih =>
    intro i st stats dir hb
    obtain ⟨hbne, hble⟩ := hb b (List.mem_cons_self b bs)
    obtain ⟨e, he, hene⟩ := h i
    simp only [runDetectBatches, he]
    obtain ⟨hst, herr⟩ := analyze_images_batch_raise st b e
    have hlen : ((analyze_images_batch st b (.raise e)).2).length = b.length :=
      analyze_images_batch_length st b (.raise e) hble
    rw [foldDetect_errors dry_run moveOk _ stats dir
      (fun r hr => ⟨e, herr r hr, hene⟩), hst, hlen,
      ih (i + 1) st _ dir (fun b' hb' => hb b' (List.mem_cons_of_mem b hb'))]
    simp only [List.map_cons, List.sum_cons]
    congr 2
    omega

/-- C2 (amended): if the oracle adapter's remote call raises (with a
non-empty message) on every batch, triage over a directory of `n` frames
returns a report with `errors == n`, `with_human == 0`, `no_human == 0` and
nothing moved (all frames stay in place, and the client state — cursor and
request count — is unchanged).  The claimed `accept == n, error == 0` is
false, see the counterexample: the engine counts error-carrying fail-open
verdicts as errors before reaching the accept branch. -/
theorem C2_amended (dir : Dir) (client : ClientState)
    (outcomes : Nat → CallOutcome) (moveOk : FileName → Bool)
    (dry_run : Bool) (h : ∀ i, ∃ e, outcomes i = .raise e ∧ e ≠ "") :
    (detect_and_organize_frames dir client outcomes moveOk dry_run).1 =
      { total := (sortFiles (dir.root.filter isImageName)).length,
        with_human := 0, no_human := 0,
        errors := (sortFiles (dir.root.filter isImageName)).length,
        moved_files := [] } ∧
    (detect_and_organize_frames dir client outcomes moveOk dry_run).2.1.root =
      dir.root ∧
    (detect_and_organize_frames dir client outcomes moveOk dry_run).2.2 =
      client := by
  obtain ⟨hflat, hmem⟩ := chunk_facts (sortFiles (dir.root.filter isImageName))
  have hsum : ((chunkList BATCH_SIZE
      (sortFiles (dir.root.filter isImageName))).map List.length).sum =
      (sortFiles (dir.root.filter isImageName)).length := by
    rw [← List.length_flatten, hflat]
  simp only [detect_and_organize_frames]
  split_ifs with he hd
  · rw [he]
    exact ⟨rfl, rfl, rfl⟩
  · rw [runDetect_raise outcomes dry_run moveOk h _ 0 client _ dir hmem, hsum]
    exact ⟨by simp, rfl, rfl⟩
  · rw [runDetect_raise outcomes dry_run moveOk h _ 0 client _ _ hmem, hsum]
    exact ⟨by simp, rfl, rfl⟩

/-- C2 witness: seven concrete frames with an always-raising oracle yield
`errors = 7` and `with_human = 0`. -/
theorem C2_witness :
    (∀ i : Nat, ∃ e, (fun _ : Nat => CallOutcome.raise "boom") i =
        CallOutcome.raise e ∧ e ≠ "") ∧
      (detect_and_organize_frames
        ⟨["a.jpg".toList, "b.jpg".toList, "c.jpg".toList, "d.jpg".toList,
          "e.jpg".toList, "f.jpg".toList, "g.jpg".toList], none⟩
        ⟨2, 0, 0⟩ (fun _ => CallOutcome.raise "boom") (fun _ => true)
        false).1 =
      { total := 7, with_human := 0, no_human := 0, errors := 7,
        moved_files := [] } := by
  have h : ∀ i : Nat, ∃ e, (fun _ : Nat => CallOutcome.raise "boom") i =
      CallOutcome.raise e ∧ e ≠ "" :=
    fun _ => ⟨"boom", rfl, by decide⟩
  refine ⟨h, ?_⟩
  have := (C2_amended
    ⟨["a.jpg".toList, "b.jpg".toList, "c.jpg".toList, "d.jpg".toList,
      "e.jpg".toList, "f.jpg".toList, "g.jpg".toList], none⟩
    ⟨2, 0, 0⟩ (fun _ => CallOutcome.raise "boom") (fun _ => true) false h).1
  rw [this]
  decide

/-! ### Quarantine-exclusion machinery (C3) -/

lemma analyze_images_batch_path_mem {st : ClientState} {b : List FileName}
    {o : CallOutcome} {r : ResultDict} (hlen : b.length ≤ BATCH_SIZE)
    (hr : r ∈ (analyze_images_batch st b o).2) : r.image_path ∈ b := by
  have h := analyze_images_batch_map_path st b o hlen
  rw [← h]
  exact List.mem_map_of_mem _ hr

lemma processDetectResult_moved (dry_run : Bool) (moveOk : FileName → Bool)
    (stats : DetectStats) (dir : Dir) (r : ResultDict) :
    (processDetectResult dry_run moveOk (stats, dir) r).1.moved_files =
        stats.moved_files ∨
      (processDetectResult dry_run moveOk (stats, dir) r).1.moved_files =
        stats.moved_files ++ [r.image_path] := by
  simp only [processDetectResult]
  split_ifs <;> simp

lemma processDetectResult_inv (dry_run : Bool) (moveOk : FileName → Bool)
    (stats : DetectStats) (dir : Dir) (r : ResultDict)
    (h1 : dir.root.Nodup)
    (h2 : ∀ f ∈ stats.moved_files, f ∉ dir.root ∧ f ∈ dir.quarantine.getD []) :
    (processDetectResult dry_run moveOk (stats, dir) r).2.root.Nodup ∧
      ∀ f ∈ (processDetectResult dry_run moveOk (stats, dir) r).1.moved_files,
        f ∉ (processDetectResult dry_run moveOk (stats, dir) r).2.root ∧
          f ∈ (processDetectResult dry_run moveOk (stats, dir) r).2.quarantine.getD [] := by
  simp only [processDetectResult]
  split_ifs
  · exact ⟨h1, h2⟩
  · exact ⟨h1, h2⟩
  · exact ⟨h1, h2⟩
  · refine ⟨h1.erase _, ?_⟩
    intro f hf
    simp only [Option.getD_some]
    rcases List.mem_append.mp hf with hf | hf
    · obtain ⟨hnr, hq⟩ := h2 f hf
      exact ⟨fun hmem => hnr (List.erase_subset _ _ hmem),
        List.mem_append_left _ hq⟩
    · rcases List.mem_singleton.mp hf with rfl
      exact ⟨h1.not_mem_erase, List.mem_append_right _ (List.mem_singleton_self _)⟩
  · exact ⟨h1, h2⟩

lemma foldDetect_inv (dry_run : Bool) (moveOk : FileName → Bool) :
    ∀ (rs : List ResultDict) (stats : DetectStats) (dir : Dir),
      dir.root.Nodup →
      (∀ f ∈ stats.moved_files, f ∉ dir.root ∧ f ∈ dir.quarantine.getD []) →
      ((rs.foldl (processDetectResult dry_run moveOk) (stats, dir)).2.root.Nodup ∧
        ∀ f ∈ (rs.foldl (processDetectResult dry_run moveOk) (stats, dir)).1.moved_files,
          f ∉ (rs.foldl (processDetectResult dry_run moveOk) (stats, dir)).2.root ∧
            f ∈ (rs.foldl (processDetectResult dry_run moveOk)
              (stats, dir)).2.quarantine.getD []) ∧
      ∀ f ∈ (rs.foldl (processDetectResult dry_run moveOk) (stats, dir)).1.moved_files,
        f ∈ stats.moved_files ∨ f ∈ rs.map (·.image_path) := by
  intro rs
  induction rs with
  | nil =>
    intro stats dir h1 h2
    exact ⟨⟨h1, h2⟩, fun f hf => Or.inl hf⟩
  | cons r rs ih =>
    intro stats dir h1 h2
    simp only [List.foldl_cons]
    obtain ⟨h1', h2'⟩ := processDetectResult_inv dry_run moveOk stats dir r h1 h2
    have := ih (processDetectResult dry_run moveOk (stats, dir) r).1
      (processDetectResult dry_run moveOk (stats, dir) r).2 h1' h2'
    rw [Prod.mk.eta] at this
    obtain ⟨hP, hsub⟩ := this
    refine ⟨hP, ?_⟩
    intro f hf
    rcases hsub f hf with hf' | hf'
    · rcases processDetectResult_moved dry_run moveOk stats dir r with hm | hm
      · rw [hm] at hf'
        exact Or.inl hf'
      · rw [hm] at hf'
        rcases List.mem_append.mp hf' with hf'' | hf''
        · exact Or.inl hf''
        · rcases List.mem_singleton.mp hf'' with rfl
          exact Or.inr (by simp)
    · refine Or.inr ?_
      simp only [List.map_cons]
      exact List.mem_cons_of_mem _ hf'

lemma runDetect_inv (outcomes : Nat → CallOutcome) (dry_run : Bool)
    (moveOk : FileName → Bool) :
    ∀ (bs : List (List FileName)) (i : Nat) (st : ClientState)
      (stats : DetectStats) (dir : Dir),
      (∀ b ∈ bs, b.length ≤ BATCH_SIZE) →
      dir.root.Nodup →
      (∀ f ∈ stats.moved_files, f ∉ dir.root ∧ f ∈ dir.quarantine.getD []) →
      ((runDetectBatches outcomes dry_run moveOk bs i st stats dir).2.1.root.Nodup ∧
        ∀ f ∈ (runDetectBatches outcomes dry_run moveOk bs i st stats dir).1.moved_files,
          f ∉ (runDetectBatches outcomes dry_run moveOk bs i st stats dir).2.1.root ∧
            f ∈ (runDetectBatches outcomes dry_run moveOk bs i st stats
              dir).2.1.quarantine.getD []) ∧
      ∀ f ∈ (runDetectBatches outcomes dry_run moveOk bs i st stats dir).1.moved_files,
        f ∈ stats.moved_files ∨ f ∈ bs.flatten := by
  intro bs
  induction bs with
  | nil =>
    intro i st stats dir _ h1 h2
    exact ⟨⟨h1, h2⟩, fun f hf => Or.inl hf⟩
  | cons b bs ih =>
    intro i st stats dir hb h1 h2
    have hble := hb b (List.mem_cons_self b bs)
    simp only [runDetectBatches]
    obtain ⟨⟨hf1, hf2⟩, hfsub⟩ := foldDetect_inv dry_run moveOk
      (analyze_images_batch st b (outcomes i)).2 stats dir h1 h2
    have := ih (i + 1) (analyze_images_batch st b (outcomes i)).1
      ((analyze_images_batch st b (outcomes i)).2.foldl
        (processDetectResult dry_run moveOk) (stats, dir)).1
      ((analyze_images_batch st b (outcomes i)).2.foldl
        (processDetectResult dry_run moveOk) (stats, dir)).2
      (fun b' hb' => hb b' (List.mem_cons_of_mem b hb')) hf1 hf2
    obtain ⟨hP, hsub⟩ := this
    refine ⟨hP, ?_⟩
    intro f hf
    rcases hsub f hf with hf' | hf'
    · rcases hfsub f hf' with hf'' | hf''
      · exact Or.inl hf''
      · rcases List.mem_map.mp hf'' with ⟨r, hr, hrp⟩
        refine Or.inr (List.mem_flatten.mpr ⟨b, List.mem_cons_self b bs, ?_⟩)
        rw [← hrp]
        exact analyze_images_batch_path_mem hble hr
    · rcases List.mem_flatten.mp hf' with ⟨c, hc, hfc⟩
      exact Or.inr (List.mem_flatten.mpr ⟨c, List.mem_cons_of_mem b hc, hfc⟩)

/-- Unfolding of the engine on an empty scan. -/
lemma detect_empty (dir : Dir) (client : ClientState)
    (outcomes : Nat → CallOutcome) (moveOk : FileName → Bool)
    (dry_run : Bool) (he : sortFiles (dir.root.filter isImageName) = []) :
    detect_and_organize_frames dir client outcomes moveOk dry_run =
      ({ total := 0, with_human := 0, no_human := 0, errors := 0,
         moved_files := [] }, dir, client) := by
  simp [detect_and_organize_frames, he]

/-- Unfolding of the engine on a non-empty scan. -/
lemma detect_nonempty (dir : Dir) (client : ClientState)
    (outcomes : Nat → CallOutcome) (moveOk : FileName → Bool)
    (dry_run : Bool) (he : sortFiles (dir.root.filter isImageName) ≠ []) :
    detect_and_organize_frames dir client outcomes moveOk dry_run =
      runDetectBatches outcomes dry_run moveOk
        (chunkList BATCH_SIZE (sortFiles (dir.root.filter isImageName))) 0
        client
        { total := (sortFiles (dir.root.filter isImageName)).length,
          with_human := 0, no_human := 0, errors := 0, moved_files := [] }
        (if dry_run then dir
         else { dir with quarantine := some (dir.quarantine.getD []) }) := by
  simp only [detect_and_organize_frames, if_neg he]

/-- All files the engine reports as moved come from its scan. -/
lemma detect_moved_sub (dir : Dir) (client : ClientState)
    (outcomes : Nat → CallOutcome) (moveOk : FileName → Bool)
    (dry_run : Bool) (hnd : dir.root.Nodup) :
    ∀ f ∈ (detect_and_organize_frames dir client outcomes moveOk
        dry_run).1.moved_files,
      f ∈ sortFiles (dir.root.filter isImageName) := by
  obtain ⟨hflat, hmem⟩ := chunk_facts (sortFiles (dir.root.filter isImageName))
  intro f hf
  by_cases he : sortFiles (dir.root.filter isImageName) = []
  · rw [detect_empty dir client outcomes moveOk dry_run he] at hf
    simp at hf
  · rw [detect_nonempty dir client outcomes moveOk dry_run he] at hf
    have hroot : (if dry_run then dir
        else { dir with quarantine := some (dir.quarantine.getD []) }).root =
        dir.root := by
      split_ifs <;> rfl
    obtain ⟨_, hsub⟩ := runDetect_inv outcomes dry_run moveOk _ 0 client
      { total := (sortFiles (dir.root.filter isImageName)).length,
        with_human := 0, no_human := 0, errors := 0, moved_files := [] }
      (if dry_run then dir
       else { dir with quarantine := some (dir.quarantine.getD []) })
      (fun b hb => (hmem b hb).2) (by rw [hroot]; exact hnd) (by simp)
    rcases hsub f hf with hf' | hf'
    · simp at hf'
    · rwa [hflat] at hf'

/-- C3 (confirmed): after a (non-dry) triage run, every moved frame sits in
the quarantine subfolder and is absent from the directory scan, so a second
triage — with any oracle behaviour, move behaviour and dry-run flag — never
re-submits or re-moves it: its reject contribution to the second report is
zero.  (The scan lists image files directly inside the directory; the
quarantine subfolder is excluded.) -/
theorem C3_idempotent (dir : Dir) (client : ClientState)
    (outcomes : Nat → CallOutcome) (moveOk : FileName → Bool)
    (hnd : dir.root.Nodup) :
    ∀ f ∈ (detect_and_organize_frames dir client outcomes moveOk
        false).1.moved_files,
      f ∈ (detect_and_organize_frames dir client outcomes moveOk
          false).2.1.quarantine.getD [] ∧
      f ∉ sortFiles ((detect_and_organize_frames dir client outcomes moveOk
          false).2.1.root.filter isImageName) ∧
      ∀ (client2 : ClientState) (outcomes2 : Nat → CallOutcome)
        (moveOk2 : FileName → Bool) (dry2 : Bool),
        f ∉ (detect_and_organize_frames
            (detect_and_organize_frames dir client outcomes moveOk false).2.1
            client2 outcomes2 moveOk2 dry2).1.moved_files := by
  obtain ⟨hflat, hmem⟩ := chunk_facts (sortFiles (dir.root.filter isImageName))
  intro f hf
  by_cases he : sortFiles (dir.root.filter isImageName) = []
  · rw [detect_empty dir client outcomes moveOk false he] at hf
    simp at hf
  · have hinv := runDetect_inv outcomes false moveOk
      (chunkList BATCH_SIZE (sortFiles (dir.root.filter isImageName))) 0 client
      { total := (sortFiles (dir.root.filter isImageName)).length,
        with_human := 0, no_human := 0, errors := 0, moved_files := [] }
      { root := dir.root, quarantine := some (dir.quarantine.getD []) }
      (fun b hb => (hmem b hb).2) hnd (by simp)
    obtain ⟨⟨hnod, hmov⟩, _⟩ := hinv
    have hun : detect_and_organize_frames dir client outcomes moveOk false =
        runDetectBatches outcomes false moveOk
          (chunkList BATCH_SIZE (sortFiles (dir.root.filter isImageName))) 0
          client
          { total := (sortFiles (dir.root.filter isImageName)).length,
            with_human := 0, no_human := 0, errors := 0, moved_files := [] }
          { root := dir.root, quarantine := some (dir.quarantine.getD []) } := by
      rw [detect_nonempty dir client outcomes moveOk false he]
      simp
    rw [hun] at hf ⊢
    obtain ⟨hnr, hq⟩ := hmov f hf
    refine ⟨hq, ?_, ?_⟩
    · intro hmem'
      rw [mem_sortFiles] at hmem'
      exact hnr (List.mem_of_mem_filter hmem')
    · intro client2 outcomes2 moveOk2 dry2 hf2
      have := detect_moved_sub _ client2 outcomes2 moveOk2 dry2 hnod f hf2
      rw [mem_sortFiles] at this
      exact hnr (List.mem_of_mem_filter this)

/-! ### Round-trip machinery (C4) -/

lemma processDetectResult_dir_cases (dry_run : Bool) (moveOk : FileName → Bool)
    (stats : DetectStats) (dir : Dir) (r : ResultDict) :
    ((processDetectResult dry_run moveOk (stats, dir) r).2 = dir ∧
      (processDetectResult dry_run moveOk (stats, dir) r).1.moved_files =
        stats.moved_files) ∨
    ((processDetectResult dry_run moveOk (stats, dir) r).2 =
        { root := dir.root.erase r.image_path,
          quarantine := some (dir.quarantine.getD [] ++ [r.image_path]) } ∧
      (processDetectResult dry_run moveOk (stats, dir) r).1.moved_files =
        stats.moved_files ++ [r.image_path]) := by
  simp only [processDetectResult]
  split_ifs <;> simp

/-- Variant of `List.perm_cons_erase` for the `BEq`-based `List.erase` the
engine model elaborates with. -/
lemma perm_cons_erase_fn {a : FileName} :
    ∀ {l : List FileName}, a ∈ l → l.Perm (a :: l.erase a) := by
  intro l
  induction l with
  | nil => intro h; simp at h
  | cons x xs ih =>
    intro h
    rw [List.erase_cons]
    by_cases hx : x = a
    · subst hx
      simp
    · rw [if_neg (by simpa using hx)]
      have hmem : a ∈ xs := by
        rcases List.mem_cons.mp h with h' | h'
        · exact absurd h'.symm hx
        · exact h'
      exact (List.Perm.cons x (ih hmem)).trans (List.Perm.swap a x _)

lemma foldDetect_perm (dry_run : Bool) (moveOk : FileName → Bool) :
    ∀ (rs : List ResultDict) (stats : DetectStats) (dir : Dir),
      (rs.map (·.image_path)).Nodup →
      (∀ r ∈ rs, r.image_path ∈ dir.root) →
      dir.quarantine.isSome →
      ((rs.foldl (processDetectResult dry_run moveOk) (stats, dir)).2.root ++
        (rs.foldl (processDetectResult dry_run moveOk)
          (stats, dir)).2.quarantine.getD []).Perm
        (dir.root ++ dir.quarantine.getD []) ∧
      (∃ Δ, (rs.foldl (processDetectResult dry_run moveOk)
            (stats, dir)).1.moved_files = stats.moved_files ++ Δ ∧
        (rs.foldl (processDetectResult dry_run moveOk)
            (stats, dir)).2.quarantine = some (dir.quarantine.getD [] ++ Δ)) ∧
      (∀ g ∈ dir.root, g ∉ rs.map (·.image_path) →
        g ∈ (rs.foldl (processDetectResult dry_run moveOk) (stats, dir)).2.root) := by
  intro rs
  induction rs with
  | nil =>
    intro stats dir _ _ hq
    refine ⟨List.Perm.refl _, ⟨[], by simp, ?_⟩, fun g hg _ => hg⟩
    rcases Option.isSome_iff_exists.mp hq with ⟨q, hq'⟩
    simp [hq']
  | cons r rs ih =>
    intro stats dir h1 h2 hq
    simp only [List.map_cons, List.nodup_cons] at h1
    obtain ⟨hhd, h1'⟩ := h1
    simp only [List.foldl_cons]
    rcases processDetectResult_dir_cases dry_run moveOk stats dir r with
      ⟨hd, hm⟩ | ⟨hd, hm⟩
    · have := ih (processDetectResult dry_run moveOk (stats, dir) r).1
        (processDetectResult dry_run moveOk (stats, dir) r).2
        h1'
        (by rw [hd]
            exact fun r' hr' => h2 r' (List.mem_cons_of_mem r hr'))
        (by rw [hd]; exact hq)
      rw [Prod.mk.eta] at this
      obtain ⟨hperm, ⟨Δ, hΔ1, hΔ2⟩, hkeep⟩ := this
      rw [hd] at hperm hΔ2 hkeep
      rw [hm] at hΔ1
      refine ⟨hperm, ⟨Δ, hΔ1, hΔ2⟩, ?_⟩
      intro g hg hgn
      exact hkeep g hg (fun hmem =>
        hgn (List.mem_cons_of_mem _ hmem))
    · have hfm : r.image_path ∈ dir.root := h2 r (List.mem_cons_self r rs)
      have := ih (processDetectResult dry_run moveOk (stats, dir) r).1
        (processDetectResult dry_run moveOk (stats, dir) r).2
        h1'
        (by rw [hd]
            intro r' hr'
            have hne : r'.image_path ≠ r.image_path := by
              intro heq
              exact hhd (heq ▸ List.mem_map_of_mem (·.image_path) hr')
            exact (List.mem_erase_of_ne hne).mpr
              (h2 r' (List.mem_cons_of_mem r hr')))
        (by rw [hd]; rfl)
      rw [Prod.mk.eta] at this
      obtain ⟨hperm, ⟨Δ, hΔ1, hΔ2⟩, hkeep⟩ := this
      rw [hd] at hperm hΔ2 hkeep
      rw [hm] at hΔ1
      simp only [Option.getD_some] at hperm hΔ2
      have hstep : (dir.root.erase r.image_path ++
          (dir.quarantine.getD [] ++ [r.image_path])).Perm
          (dir.root ++ dir.quarantine.getD []) := by
        have e1 : dir.root.erase r.image_path ++
            (dir.quarantine.getD [] ++ [r.image_path]) =
            (dir.root.erase r.image_path ++ dir.quarantine.getD []) ++
              [r.image_path] := by rw [List.append_assoc]
        rw [e1]
        refine (List.perm_append_singleton _ _).trans ?_
        have e2 : (r.image_path ::
            (dir.root.erase r.image_path ++ dir.quarantine.getD [])) =
            (r.image_path :: dir.root.erase r.image_path) ++
              dir.quarantine.getD [] := rfl
        rw [e2]
        exact List.Perm.append_right _ (perm_cons_erase_fn hfm).symm
      refine ⟨hperm.trans hstep, ⟨r.image_path :: Δ, by simpa using hΔ1, ?_⟩, ?_⟩
      · rw [hΔ2]
        simp
      · intro g hg hgn
        have hne : g ≠ r.image_path := by
          intro heq
          exact hgn (by simp [heq])
        refine hkeep g ((List.mem_erase_of_ne hne).mpr hg) ?_
        intro hmem
        exact hgn (List.mem_cons_of_mem _ hmem)

lemma runDetect_perm (outcomes : Nat → CallOutcome) (dry_run : Bool)
    (moveOk : FileName → Bool) :
    ∀ (bs : List (List FileName)) (i : Nat) (st : ClientState)
      (stats : DetectStats) (dir : Dir),
      (∀ b ∈ bs, b.length ≤ BATCH_SIZE) →
      bs.flatten.Nodup →
      (∀ g ∈ bs.flatten, g ∈ dir.root) →
      dir.quarantine.isSome →
      ((runDetectBatches outcomes dry_run moveOk bs i st stats dir).2.1.root ++
        (runDetectBatches outcomes dry_run moveOk bs i st stats
          dir).2.1.quarantine.getD []).Perm
        (dir.root ++ dir.quarantine.getD []) ∧
      ∃ Δ, (runDetectBatches outcomes dry_run moveOk bs i st
            stats dir).1.moved_files = stats.moved_files ++ Δ ∧
        (runDetectBatches outcomes dry_run moveOk bs i st stats
            dir).2.1.quarantine = some (dir.quarantine.getD [] ++ Δ) := by
  intro bs
  induction bs with
  | nil =>
    intro i st stats dir _ _ _ hq
    refine ⟨List.Perm.refl _, [], by simp [runDetectBatches], ?_⟩
    rcases Option.isSome_iff_exists.mp hq with ⟨q, hq'⟩
    simp [runDetectBatches, hq']
  | cons b bs ih =>
    intro i st stats dir hb hnd hsub hq
    have hble := (hb b (List.mem_cons_self b bs))
    have hpaths : ((analyze_images_batch st b (outcomes i)).2).map
        (·.image_path) = b := analyze_images_batch_map_path st b (outcomes i) hble
    rw [List.flatten_cons] at hnd hsub
    have hbn : b.Nodup := hnd.of_append_left
    have hdisj : b.Disjoint bs.flatten := List.disjoint_of_nodup_append hnd
    simp only [runDetectBatches]
    obtain ⟨hperm1, ⟨Δ1, hΔ11, hΔ12⟩, hkeep1⟩ := foldDetect_perm dry_run moveOk
      (analyze_images_batch st b (outcomes i)).2 stats dir
      (by rw [hpaths]; exact hbn)
      (fun r hr => hsub _ (List.mem_append_left _
        (analyze_images_batch_path_mem hble hr)))
      hq
    have := ih (i + 1) (analyze_images_batch st b (outcomes i)).1
      ((analyze_images_batch st b (outcomes i)).2.foldl
        (processDetectResult dry_run moveOk) (stats, dir)).1
      ((analyze_images_batch st b (outcomes i)).2.foldl
        (processDetectResult dry_run moveOk) (stats, dir)).2
      (fun b' hb' => hb b' (List.mem_cons_of_mem b hb'))
      hnd.of_append_right
      (by intro g hg
          refine hkeep1 g (hsub g (List.mem_append_right _ hg)) ?_
          rw [hpaths]
          exact fun hgb => hdisj hgb hg)
      (by rw [hΔ12]; rfl)
    obtain ⟨hperm2, Δ2, hΔ21, hΔ22⟩ := this
    refine ⟨hperm2.trans hperm1, Δ1 ++ Δ2, ?_, ?_⟩
    · rw [hΔ21, hΔ11, List.append_assoc]
    · rw [hΔ22, hΔ12]
      simp [List.append_assoc]

lemma restoreFold_all (moveOk : FileName → Bool)
    (hmv : ∀ f, moveOk f = true) :
    ∀ (files : List FileName) (n : Nat) (root q : List FileName),
      ∃ q', files.foldl (restoreFold moveOk) (n, root, q) =
        (n + files.length, root ++ files, q') := by
  intro files
  induction files with
  | nil => intro n root q; exact ⟨q, by simp⟩
  | cons f fs ih =>
    intro n root q
    obtain ⟨q', hq'⟩ := ih (n + 1) (root ++ [f]) (q.erase f)
    refine ⟨q', ?_⟩
    rw [List.foldl_cons]
    simp only [restoreFold, hmv f, if_pos]
    rw [hq']
    refine congrArg₂ Prod.mk (by simp; omega) (congrArg₂ Prod.mk ?_ rfl)
    rw [List.append_assoc]
    rfl

/-- C4 (amended): for a directory with no pre-existing quarantine folder,
whose files' image extensions are lowercase (so that the case-sensitive
restore filter matches everything the case-insensitive scan admitted), and
with every move succeeding, `restore` after `triage` returns the root
membership to its pre-triage state (up to order) and reports exactly the
number of files the triage moved.  A missing quarantine subfolder makes
`restore` return zero unconditionally, and `restore_not_suitable_frames` is
the same operation as `restore_no_human_frames`.  (For an uppercase
extension such as `A.JPG` the round-trip fails — see the counterexample.) -/
theorem C4_round_trip (dir : Dir) (client : ClientState)
    (outcomes : Nat → CallOutcome) (moveOk : FileName → Bool)
    (hq : dir.quarantine = none) (hnd : dir.root.Nodup)
    (hext : ∀ f ∈ dir.root, isImageName f = true → isImageNameCS f = true)
    (hmv : ∀ f, moveOk f = true) :
    ((restore_no_human_frames
        (detect_and_organize_frames dir client outcomes moveOk
          false).2.1 moveOk).2.root.Perm dir.root ∧
      (restore_no_human_frames
        (detect_and_organize_frames dir client outcomes moveOk
          false).2.1 moveOk).1 =
        (detect_and_organize_frames dir client outcomes moveOk
          false).1.moved_files.length) ∧
    (∀ (d : Dir) (mv : FileName → Bool), d.quarantine = none →
      restore_no_human_frames d mv = (0, d)) ∧
    (∀ (d : Dir) (mv : FileName → Bool),
      restore_not_suitable_frames d mv = restore_no_human_frames d mv) := by
  refine ⟨?_, fun d mv hd => by simp [restore_no_human_frames, hd],
    fun d mv => rfl⟩
  obtain ⟨hflat, hmem⟩ := chunk_facts (sortFiles (dir.root.filter isImageName))
  by_cases he : sortFiles (dir.root.filter isImageName) = []
  · rw [detect_empty dir client outcomes moveOk false he]
    simp [restore_no_human_frames, hq]
  · rw [detect_nonempty dir client outcomes moveOk false he]
    simp only [Bool.false_eq_true, if_false, hq, Option.getD_none]
    have hscan_sub : ∀ g ∈ sortFiles (dir.root.filter isImageName),
        g ∈ dir.root := by
      intro g hg
      rw [mem_sortFiles] at hg
      exact List.mem_of_mem_filter hg
    have hscan_nodup : (sortFiles (dir.root.filter isImageName)).Nodup :=
      sortFiles_nodup (hnd.filter _)
    obtain ⟨hperm, Δ, hΔ1, hΔ2⟩ := runDetect_perm outcomes false moveOk
      (chunkList BATCH_SIZE (sortFiles (dir.root.filter isImageName))) 0 client
      { total := (sortFiles (dir.root.filter isImageName)).length,
        with_human := 0, no_human := 0, errors := 0, moved_files := [] }
      { root := dir.root, quarantine := some [] }
      (fun b hb => (hmem b hb).2)
      (by rw [hflat]; exact hscan_nodup)
      (by rw [hflat]; exact hscan_sub)
      rfl
    simp only [Option.getD_some, List.append_nil, List.nil_append] at hperm hΔ2
    have hmoved_sub : ∀ f ∈ Δ, f ∈ sortFiles (dir.root.filter isImageName) := by
      intro f hf
      obtain ⟨_, hsub⟩ := runDetect_inv outcomes false moveOk
        (chunkList BATCH_SIZE (sortFiles (dir.root.filter isImageName))) 0
        client
        { total := (sortFiles (dir.root.filter isImageName)).length,
          with_human := 0, no_human := 0, errors := 0, moved_files := [] }
        { root := dir.root, quarantine := some [] }
        (fun b hb => (hmem b hb).2) hnd (by simp)
      rcases hsub f (by rw [hΔ1]; simpa using hf) with h' | h'
      · simp at h'
      · rwa [hflat] at h'
    have hcs : ∀ f ∈ Δ, isImageNameCS f = true := by
      intro f hf
      have hmem' := hmoved_sub f hf
      rw [mem_sortFiles, List.mem_filter] at hmem'
      exact hext f hmem'.1 hmem'.2
    rw [hΔ2] at hperm
    simp only [Option.getD_some] at hperm
    simp only [restore_no_human_frames, hΔ2]
    rw [List.filter_eq_self.mpr hcs]
    obtain ⟨q', hfold⟩ := restoreFold_all moveOk hmv Δ 0 _ Δ
    rw [hfold]
    refine ⟨hperm, ?_⟩
    rw [hΔ1]
    simp

/-! ### Frame numbering machinery (C5, C7) -/

lemma foldr_eq_ofDigits :
    ∀ (ds : List Nat), (∀ d ∈ ds, d < 10) →
      (ds.map Nat.digitChar).foldr
        (fun c acc => 10 * acc + (c.toNat - 48)) 0 = Nat.ofDigits 10 ds := by
  intro ds
  induction ds with
  | nil => intro _; simp [Nat.ofDigits]
  | cons d ds ih =>
    intro h
    have hd : d < 10 := h d (List.mem_cons_self d ds)
    have hchar : (Nat.digitChar d).toNat - 48 = d := by
      interval_cases d <;> rfl
    simp only [List.map_cons, List.foldr_cons,
      ih (fun d' hd' => h d' (List.mem_cons_of_mem d hd')), Nat.ofDigits_cons,
      hchar]
    omega

lemma parseNat_digitsChars (n : Nat) : parseNat (digitsChars n) = n := by
  simp only [parseNat, digitsChars, List.foldl_reverse]
  rw [foldr_eq_ofDigits (Nat.digits 10 n)
    (fun d hd => Nat.digits_lt_base (by norm_num) hd)]
  exact Nat.ofDigits_digits 10 n

lemma parseNat_pad5 (n : Nat) : parseNat (pad5 n) = n := by
  have hz : ∀ (k : Nat) (l : List Char),
      (List.replicate k '0' ++ l).foldl
        (fun acc c => 10 * acc + (c.toNat - 48)) 0 =
      l.foldl (fun acc c => 10 * acc + (c.toNat - 48)) 0 := by
    intro k
    induction k with
    | zero => intro l; rfl
    | succ k ih => intro l; simpa using ih l
  simp only [pad5, parseNat] at *
  rw [hz]
  exact parseNat_digitsChars n

lemma pad5_inj {a b : Nat} (h : pad5 a = pad5 b) : a = b := by
  have := congrArg parseNat h
  rwa [parseNat_pad5, parseNat_pad5] at this

lemma frameFileName_inj {a b : Nat} (h : frameFileName a = frameFileName b) :
    a = b := by
  simp only [frameFileName] at h
  rw [List.append_assoc, List.append_assoc] at h
  have h1 := List.append_cancel_left h
  have hlen : (pad5 a).length = (pad5 b).length := by
    have := congrArg List.length h1
    simp only [List.length_append] at this
    omega
  exact pad5_inj (List.append_inj h1 hlen).1

lemma frameFileName_frame (n : Nat) :
    ("frame_".toList.isPrefixOf (frameFileName n) &&
      ".jpg".toList.isSuffixOf (frameFileName n)) = true := by
  rw [Bool.and_eq_true, List.isPrefixOf_iff_prefix, List.isSuffixOf_iff_suffix]
  constructor
  · exact List.prefix_append _ _
  · exact List.suffix_append _ _

lemma countFrames_range (m : Nat) :
    countFrames ((List.range m).map frameFileName) = m := by
  rw [countFrames, List.filter_eq_self.mpr]
  · simp
  · intro f hf
    rcases List.mem_map.mp hf with ⟨i, _, rfl⟩
    exact frameFileName_frame i

lemma writeFile_fresh (ec : Nat) :
    writeFile ((List.range ec).map frameFileName) (frameFileName ec) =
      (List.range (ec + 1)).map frameFileName := by
  have hfresh : frameFileName ec ∉ (List.range ec).map frameFileName := by
    intro hmem
    rcases List.mem_map.mp hmem with ⟨i, hi, hfi⟩
    rw [List.mem_range] at hi
    exact absurd (frameFileName_inj hfi) (by omega)
  rw [writeFile, if_neg hfresh, List.range_succ, List.map_append]
  rfl

lemma extractLoop_count (step : Nat) :
    ∀ (remaining count ec : Nat) (d : List FileName),
      (extractLoop step count remaining ec d).2 =
        ec + countSel step count remaining := by
  intro remaining
  induction remaining with
  | zero => intro count ec d; simp [extractLoop, countSel]
  | succ r ih =>
    intro count ec d
    rw [extractLoop]
    split_ifs with hc
    · rw [ih]
      simp only [countSel, if_pos hc]
      omega
    · rw [ih]
      simp only [countSel, if_neg hc]
      omega

lemma extractLoop_range (step : Nat) :
    ∀ (remaining count ec : Nat),
      (extractLoop step count remaining ec
          ((List.range ec).map frameFileName)).1 =
        (List.range (ec + countSel step count remaining)).map frameFileName := by
  intro remaining
  induction remaining with
  | zero => intro count ec; simp [extractLoop, countSel]
  | succ r ih =>
    intro count ec
    rw [extractLoop]
    split_ifs with hc
    · rw [writeFile_fresh, ih]
      simp only [countSel, if_pos hc]
      congr 2
      omega
    · rw [ih]
      simp only [countSel, if_neg hc]
      congr 2
      omega

lemma countSel_eq_countP (step : Nat) :
    ∀ (remaining count : Nat),
      countSel step count remaining =
        (List.range remaining).countP (fun j => (count + j) % step = 0) := by
  intro remaining
  induction remaining with
  | zero => intro count; simp [countSel]
  | succ r ih =>
    intro count
    rw [countSel, ih (count + 1), List.range_succ_eq_map, List.countP_cons,
      List.countP_map]
    have hfun : ((fun j => decide ((count + j) % step = 0)) ∘ Nat.succ) =
        (fun j => decide ((count + 1 + j) % step = 0)) := by
      funext j
      simp only [Function.comp_apply]
      have e : count + Nat.succ j = count + 1 + j := by omega
      rw [e]
    rw [hfun]
    simp only [Nat.add_zero, decide_eq_true_eq]
    split_ifs with hc <;> omega

lemma extract_video_range (v : Video) (sec : ℚ) (ho : v.openable = true)
    (m : Nat) :
    extract_frames_from_video ((List.range m).map frameFileName) v sec =
      (countSel (stepFrames v.fps sec) 0 v.frames,
       (List.range (m + countSel (stepFrames v.fps sec) 0 v.frames)).map
         frameFileName) := by
  rw [extract_frames_from_video, if_neg (by simp [ho])]
  simp only [countFrames_range, extractLoop_count, extractLoop_range]
  rw [Prod.mk.injEq]
  exact ⟨by omega, rfl⟩

lemma extract_videos_fold (sec : ℚ) :
    ∀ (videos : List Video) (m t : Nat),
      (∀ v ∈ videos, v.openable = true) →
      ∃ k, videos.foldl
          (fun acc v =>
            let out := extract_frames_from_video acc.1 v sec
            (out.2, acc.2 + out.1))
          ((List.range m).map frameFileName, t) =
        ((List.range (m + k)).map frameFileName, t + k) := by
  intro videos
  induction videos with
  | nil => intro m t _; exact ⟨0, by simp⟩
  | cons v vs ih =>
    intro m t h
    have hv : v.openable = true := h v (List.mem_cons_self v vs)
    simp only [List.foldl_cons]
    rw [extract_video_range v sec hv m]
    obtain ⟨k, hk⟩ := ih (m + countSel (stepFrames v.fps sec) 0 v.frames)
      (t + countSel (stepFrames v.fps sec) 0 v.frames)
      (fun v' hv' => h v' (List.mem_cons_of_mem v hv'))
    refine ⟨countSel (stepFrames v.fps sec) 0 v.frames + k, ?_⟩
    rw [hk]
    simp [Nat.add_assoc]

/-- C5 (confirmed): extracting any ordered list of openable videos into an
initially empty output directory yields exactly the frame files
`frame_00000.jpg .. frame_<total-1>.jpg` — numeric suffixes `0..(total-1)`
with no gaps or repeats, each video continuing the numbering where the
previous ones stopped (the frame rates, hence the per-video steps, are
arbitrary). -/
theorem C5_frame_numbering (videos : List Video) (sec : ℚ)
    (h : ∀ v ∈ videos, v.openable = true) :
    (extract_frames_from_videos [] videos sec).1 =
      (List.range (extract_frames_from_videos [] videos sec).2).map
        frameFileName := by
  obtain ⟨k, hk⟩ := extract_videos_fold sec videos 0 0 h
  have h0 : (([] : List FileName), 0) =
      (((List.range 0).map frameFileName), 0) := by simp
  rw [extract_frames_from_videos, h0, hk]

/-- C5 witness: two openable videos with different frame rates produce the
files numbered 0..3. -/
theorem C5_witness :
    (∀ v ∈ ([⟨true, 3, 5⟩, ⟨true, 1, 2⟩] : List Video), v.openable = true) ∧
      (extract_frames_from_videos [] [⟨true, 3, 5⟩, ⟨true, 1, 2⟩] 1).1 =
        (List.range
          (extract_frames_from_videos [] [⟨true, 3, 5⟩, ⟨true, 1, 2⟩] 1).2).map
          frameFileName :=
  ⟨by decide, C5_frame_numbering [⟨true, 3, 5⟩, ⟨true, 1, 2⟩] 1 (by decide)⟩

/-- C7 (amended): for every openable video, the number of frames written is
the number of frame indices divisible by `stepFrames` — where `stepFrames`
is `max(1, int(fps * interval))`, i.e. truncation toward zero rather than
the claimed rounding (see the counterexample) — and a video whose reported
frame rate is ≤ 0 is sampled with `stepFrames = 1`, writing every frame
rather than failing the run. -/
theorem C7_amended (d : List FileName) (v : Video) (sec : ℚ)
    (ho : v.openable = true) (hsec : 0 ≤ sec) :
    (extract_frames_from_video d v sec).1 =
      ((List.range v.frames).filter
        (fun c => c % stepFrames v.fps sec = 0)).length ∧
    (v.fps ≤ 0 → stepFrames v.fps sec = 1 ∧
      (extract_frames_from_video d v sec).1 = v.frames) := by
  have hcount : (extract_frames_from_video d v sec).1 =
      countSel (stepFrames v.fps sec) 0 v.frames := by
    rw [extract_frames_from_video, if_neg (by simp [ho])]
    simp only [extractLoop_count]
    omega
  have hfilter : countSel (stepFrames v.fps sec) 0 v.frames =
      ((List.range v.frames).filter
        (fun c => c % stepFrames v.fps sec = 0)).length := by
    rw [countSel_eq_countP, ← List.countP_eq_length_filter]
    congr 1
    funext j
    simp
  constructor
  · rw [hcount, hfilter]
  · intro hfps
    have hq : v.fps * sec ≤ 0 :=
      mul_nonpos_iff.mpr (Or.inr ⟨hfps, hsec⟩)
    have hstep : stepFrames v.fps sec = 1 := by
      rw [stepFrames, pyInt]
      have hlt : (if 0 ≤ v.fps * sec then ⌊v.fps * sec⌋ else ⌈v.fps * sec⌉) < 1 := by
        split_ifs with h0
        · have : v.fps * sec = 0 := le_antisymm hq h0
          rw [this]
          simp
        · have := Int.ceil_le.mpr (show v.fps * sec ≤ ((0 : Int) : ℚ) by
            exact_mod_cast hq)
          omega
      rw [if_pos hlt]
    refine ⟨hstep, ?_⟩
    rw [hcount, hstep, countSel_eq_countP]
    simp [Nat.mod_one]

/-- C7 witness: an openable video with non-positive reported frame rate is
extracted with step 1 — every one of its 4 frames is written. -/
theorem C7_witness :
    ((⟨true, -2, 4⟩ : Video).openable = true ∧ (0 : ℚ) ≤ 1) ∧
      (stepFrames (⟨true, -2, 4⟩ : Video).fps 1 = 1 ∧
        (extract_frames_from_video [] (⟨true, -2, 4⟩ : Video) 1).1 = 4) :=
  ⟨⟨rfl, by norm_num⟩,
    (C7_amended [] ⟨true, -2, 4⟩ 1 rfl (by norm_num)).2 (by norm_num)⟩

/-- C3 witness: a concrete two-frame directory in which the first frame is
rejected and moved; the idempotence conclusions apply to it. -/
theorem C3_witness :
    ((["a.jpg".toList, "b.jpg".toList] : List FileName).Nodup ∧
      (detect_and_organize_frames ⟨["a.jpg".toList, "b.jpg".toList], none⟩
        ⟨2, 0, 0⟩
        (fun _ => .ok [⟨some false, none, none⟩, ⟨some true, none, none⟩])
        (fun _ => true) false).1.moved_files = ["a.jpg".toList]) ∧
    (∀ f ∈ (detect_and_organize_frames ⟨["a.jpg".toList, "b.jpg".toList], none⟩
        ⟨2, 0, 0⟩
        (fun _ => .ok [⟨some false, none, none⟩, ⟨some true, none, none⟩])
        (fun _ => true) false).1.moved_files,
      f ∈ (detect_and_organize_frames ⟨["a.jpg".toList, "b.jpg".toList], none⟩
          ⟨2, 0, 0⟩
          (fun _ => .ok [⟨some false, none, none⟩, ⟨some true, none, none⟩])
          (fun _ => true) false).2.1.quarantine.getD [] ∧
      f ∉ sortFiles ((detect_and_organize_frames
          ⟨["a.jpg".toList, "b.jpg".toList], none⟩ ⟨2, 0, 0⟩
          (fun _ => .ok [⟨some false, none, none⟩, ⟨some true, none, none⟩])
          (fun _ => true) false).2.1.root.filter isImageName) ∧
      ∀ (client2 : ClientState) (outcomes2 : Nat → CallOutcome)
        (moveOk2 : FileName → Bool) (dry2 : Bool),
        f ∉ (detect_and_organize_frames
            (detect_and_organize_frames ⟨["a.jpg".toList, "b.jpg".toList], none⟩
              ⟨2, 0, 0⟩
              (fun _ => .ok [⟨some false, none, none⟩, ⟨some true, none, none⟩])
              (fun _ => true) false).2.1
            client2 outcomes2 moveOk2 dry2).1.moved_files) :=
  ⟨⟨by decide, by decide⟩,
    C3_idempotent ⟨["a.jpg".toList, "b.jpg".toList], none⟩ ⟨2, 0, 0⟩
      (fun _ => .ok [⟨some false, none, none⟩, ⟨some true, none, none⟩])
      (fun _ => true) (by decide)⟩

/-- C4 witness: the round-trip evaluated on a two-frame lowercase-extension
directory with one rejection. -/
theorem C4_witness :
    ((⟨["a.jpg".toList, "b.jpg".toList], none⟩ : Dir).quarantine = none ∧
      (["a.jpg".toList, "b.jpg".toList] : List FileName).Nodup ∧
      (∀ f ∈ (["a.jpg".toList, "b.jpg".toList] : List FileName),
        isImageName f = true → isImageNameCS f = true) ∧
      (∀ f : FileName, (fun _ => true) f = true)) ∧
    ((restore_no_human_frames
        (detect_and_organize_frames ⟨["a.jpg".toList, "b.jpg".toList], none⟩
          ⟨2, 0, 0⟩
          (fun _ => .ok [⟨some false, none, none⟩, ⟨some true, none, none⟩])
          (fun _ => true) false).2.1 (fun _ => true)).2.root.Perm
        ["a.jpg".toList, "b.jpg".toList] ∧
      (restore_no_human_frames
        (detect_and_organize_frames ⟨["a.jpg".toList, "b.jpg".toList], none⟩
          ⟨2, 0, 0⟩
          (fun _ => .ok [⟨some false, none, none⟩, ⟨some true, none, none⟩])
          (fun _ => true) false).2.1 (fun _ => true)).1 =
        (detect_and_organize_frames ⟨["a.jpg".toList, "b.jpg".toList], none⟩
          ⟨2, 0, 0⟩
          (fun _ => .ok [⟨some false, none, none⟩, ⟨some true, none, none⟩])
          (fun _ => true) false).1.moved_files.length) :=
  ⟨⟨rfl, by decide, by decide, fun _ => rfl⟩,
    (C4_round_trip ⟨["a.jpg".toList, "b.jpg".toList], none⟩ ⟨2, 0, 0⟩
      (fun _ => .ok [⟨some false, none, none⟩, ⟨some true, none, none⟩])
      (fun _ => true) rfl (by decide) (by decide) (fun _ => rfl)).1⟩

/-! ### Model rotation machinery (C6) -/

lemma analyze_images_batch_ok_state (st : ClientState) (b : List FileName)
    (imgs : List ImagesEntry) (hb : b ≠ []) :
    (analyze_images_batch st b (.ok imgs)).1 =
      rotateModel { st with request_count := st.request_count + 1 } := by
  simp [analyze_images_batch, hb]

lemma analyze_images_batch_parse_state (st : ClientState) (b : List FileName)
    (m : String) (hb : b ≠ []) :
    (analyze_images_batch st b (.parseError m)).1 =
      rotateModel { st with request_count := st.request_count + 1 } := by
  simp [analyze_images_batch, hb]

lemma chunk12 (l : List FileName) (hl : l.length = 12) :
    (chunkList BATCH_SIZE l).map List.length = [5, 5, 2] := by
  have h1 : l ≠ [] := by
    intro h
    rw [h] at hl
    simp at hl
  have hB : BATCH_SIZE ≠ 0 := by decide
  have hcons : ∀ m : List FileName, m ≠ [] →
      chunkList BATCH_SIZE m = m.take BATCH_SIZE ::
        chunkList BATCH_SIZE (m.drop BATCH_SIZE) := by
    intro m hm
    cases m with
    | nil => exact absurd rfl hm
    | cons x xs => exact chunkList_cons hB x xs
  have hl1 : (l.drop BATCH_SIZE).length = 7 := by
    simp [List.length_drop, hl]
    rfl
  have h2 : l.drop BATCH_SIZE ≠ [] := by
    intro h
    rw [h] at hl1
    simp at hl1
  have hl2 : ((l.drop BATCH_SIZE).drop BATCH_SIZE).length = 2 := by
    simp [List.length_drop, hl, BATCH_SIZE]
  have h3 : (l.drop BATCH_SIZE).drop BATCH_SIZE ≠ [] := by
    intro h
    rw [h] at hl2
    simp at hl2
  have h4 : ((l.drop BATCH_SIZE).drop BATCH_SIZE).drop BATCH_SIZE = [] := by
    apply List.eq_nil_of_length_eq_zero
    simp [List.length_drop, hl, BATCH_SIZE]
  rw [hcons l h1, hcons _ h2, hcons _ h3, h4, chunkList_nil]
  simp only [List.map_cons, List.map_nil, List.length_take, hl, hl1, hl2]
  decide

lemma runDetect_client (outcomes : Nat → CallOutcome) (dry_run : Bool)
    (moveOk : FileName → Bool) (hok : ∀ i, ∃ imgs, outcomes i = .ok imgs) :
    ∀ (bs : List (List FileName)) (i : Nat) (st : ClientState)
      (stats : DetectStats) (dir : Dir),
      (∀ b ∈ bs, b ≠ []) →
      (runDetectBatches outcomes dry_run moveOk bs i st stats dir).2.2.numModels =
        st.numModels ∧
      (runDetectBatches outcomes dry_run moveOk bs i st stats
          dir).2.2.request_count = st.request_count + bs.length ∧
      (bs ≠ [] →
        (runDetectBatches outcomes dry_run moveOk bs i st stats
            dir).2.2.current_model_idx =
          (st.current_model_idx + bs.length) % st.numModels) := by
  intro bs
  induction bs with
  | nil =>
    intro i st stats dir _
    exact ⟨rfl, by simp [runDetectBatches], fun h => absurd rfl h⟩
  | cons b bs ih =>
    intro i st stats dir hb
    obtain ⟨imgs, himgs⟩ := hok i
    have hbne : b ≠ [] := hb b (List.mem_cons_self b bs)
    simp only [runDetectBatches, himgs,
      analyze_images_batch_ok_state st b imgs hbne]
    obtain ⟨hn, hrc, hidx⟩ := ih (i + 1)
      (rotateModel { st with request_count := st.request_count + 1 })
      _ _ (fun b' hb' => hb b' (List.mem_cons_of_mem b hb'))
    refine ⟨hn, by rw [hrc]; simp [rotateModel]; omega, fun _ => ?_⟩
    cases bs with
    | nil =>
      simp [runDetectBatches, rotateModel]
    | cons b' bs' =>
      rw [hidx (by simp)]
      simp only [rotateModel, List.length_cons]
      rw [Nat.mod_add_mod]
      congr 1
      omega

/-- C6 (amended): the rotation cursor advances by exactly one on every
batch call whose remote request returns (successfully parsed or not), but a
transport raise leaves the cursor and request counter untouched (contrary
to the claim's "regardless of whether the remote call succeeds or raises" —
see the counterexample).  Independently, 12 frames at batch size 5 produce
exactly 3 adapter calls of sizes 5, 5, 2, and when every remote call
returns, triaging 12 frames advances the rotation by exactly 3 steps and
the request counter by 3. -/
theorem C6_amended :
    (∀ (st : ClientState) (ps : List FileName) (m : String),
      (analyze_images_batch st ps (.raise m)).1 = st) ∧
    (∀ (st : ClientState) (ps : List FileName), ps ≠ [] →
      (∀ m, (analyze_images_batch st ps (.parseError m)).1 =
        rotateModel { st with request_count := st.request_count + 1 }) ∧
      (∀ imgs, (analyze_images_batch st ps (.ok imgs)).1 =
        rotateModel { st with request_count := st.request_count + 1 })) ∧
    (∀ l : List FileName, l.length = 12 →
      (chunkList BATCH_SIZE l).map List.length = [5, 5, 2]) ∧
    (∀ (dir : Dir) (client : ClientState) (outcomes : Nat → CallOutcome)
      (moveOk : FileName → Bool) (dry : Bool),
      (∀ i, ∃ imgs, outcomes i = .ok imgs) →
      (sortFiles (dir.root.filter isImageName)).length = 12 →
      (detect_and_organize_frames dir client outcomes moveOk
          dry).2.2.request_count = client.request_count + 3 ∧
      (detect_and_organize_frames dir client outcomes moveOk
          dry).2.2.current_model_idx =
        (client.current_model_idx + 3) % client.numModels) := by
  refine ⟨fun st ps m => (analyze_images_batch_raise st ps m).1,
    fun st ps hps => ⟨fun m => analyze_images_batch_parse_state st ps m hps,
      fun imgs => analyze_images_batch_ok_state st ps imgs hps⟩,
    chunk12, ?_⟩
  intro dir client outcomes moveOk dry hok h12
  obtain ⟨hflat, hmem⟩ := chunk_facts (sortFiles (dir.root.filter isImageName))
  have he : sortFiles (dir.root.filter isImageName) ≠ [] := by
    intro h
    rw [h] at h12
    simp at h12
  have hlen3 : (chunkList BATCH_SIZE
      (sortFiles (dir.root.filter isImageName))).length = 3 := by
    have := congrArg List.length (chunk12 _ h12)
    simpa using this
  have hne3 : chunkList BATCH_SIZE
      (sortFiles (dir.root.filter isImageName)) ≠ [] := by
    intro h
    rw [h] at hlen3
    simp at hlen3
  rw [detect_nonempty dir client outcomes moveOk dry he]
  obtain ⟨hn, hrc, hidx⟩ := runDetect_client outcomes dry moveOk hok
    (chunkList BATCH_SIZE (sortFiles (dir.root.filter isImageName))) 0 client
    { total := (sortFiles (dir.root.filter isImageName)).length,
      with_human := 0, no_human := 0, errors := 0, moved_files := [] }
    (if dry then dir
     else { dir with quarantine := some (dir.quarantine.getD []) })
    (fun b hb => (hmem b hb).1)
  rw [hrc, hidx hne3, hlen3]
  exact ⟨rfl, rfl⟩

/-- C6 witness: a concrete 12-frame directory, an always-returning oracle,
and a 2-model client starting at cursor 0: three calls, rotation advanced by
3 (mod 2), request counter 3. -/
theorem C6_witness :
    ((∀ i : Nat, ∃ imgs, (fun _ : Nat => CallOutcome.ok []) i =
        CallOutcome.ok imgs) ∧
      (sortFiles ((["a.jpg".toList, "b.jpg".toList, "c.jpg".toList,
        "d.jpg".toList, "e.jpg".toList, "f.jpg".toList, "g.jpg".toList,
        "h.jpg".toList, "i.jpg".toList, "j.jpg".toList, "k.jpg".toList,
        "l.jpg".toList] : List FileName).filter isImageName)).length = 12) ∧
    ((detect_and_organize_frames
        ⟨["a.jpg".toList, "b.jpg".toList, "c.jpg".toList, "d.jpg".toList,
          "e.jpg".toList, "f.jpg".toList, "g.jpg".toList, "h.jpg".toList,
          "i.jpg".toList, "j.jpg".toList, "k.jpg".toList, "l.jpg".toList],
          none⟩
        ⟨2, 0, 0⟩ (fun _ => CallOutcome.ok []) (fun _ => true)
        true).2.2.request_count =
      (⟨2, 0, 0⟩ : ClientState).request_count + 3 ∧
      (detect_and_organize_frames
        ⟨["a.jpg".toList, "b.jpg".toList, "c.jpg".toList, "d.jpg".toList,
          "e.jpg".toList, "f.jpg".toList, "g.jpg".toList, "h.jpg".toList,
          "i.jpg".toList, "j.jpg".toList, "k.jpg".toList, "l.jpg".toList],
          none⟩
        ⟨2, 0, 0⟩ (fun _ => CallOutcome.ok []) (fun _ => true)
        true).2.2.current_model_idx =
      ((⟨2, 0, 0⟩ : ClientState).current_model_idx + 3) %
        (⟨2, 0, 0⟩ : ClientState).numModels) :=
  ⟨⟨fun _ => ⟨[], rfl⟩, by decide⟩,
    C6_amended.2.2.2
      ⟨["a.jpg".toList, "b.jpg".toList, "c.jpg".toList, "d.jpg".toList,
        "e.jpg".toList, "f.jpg".toList, "g.jpg".toList, "h.jpg".toList,
        "i.jpg".toList, "j.jpg".toList, "k.jpg".toList, "l.jpg".toList],
        none⟩
      ⟨2, 0, 0⟩ (fun _ => CallOutcome.ok []) (fun _ => true) true
      (fun _ => ⟨[], rfl⟩) (by decide)⟩

/-! ### Dry-run machinery (C10) -/

lemma processDetect_parallel_step (moveOkD : FileName → Bool)
    (sD sW : DetectStats) (dD dW : Dir) (r : ResultDict)
    (ht : sD.total = sW.total) (hw : sD.with_human = sW.with_human)
    (hn : sD.no_human = sW.no_human) (he : sD.errors = sW.errors) :
    (processDetectResult true moveOkD (sD, dD) r).2 = dD ∧
    (processDetectResult true moveOkD (sD, dD) r).1.moved_files =
      sD.moved_files ∧
    (processDetectResult true moveOkD (sD, dD) r).1.total =
      (processDetectResult false (fun _ => true) (sW, dW) r).1.total ∧
    (processDetectResult true moveOkD (sD, dD) r).1.with_human =
      (processDetectResult false (fun _ => true) (sW, dW) r).1.with_human ∧
    (processDetectResult true moveOkD (sD, dD) r).1.no_human =
      (processDetectResult false (fun _ => true) (sW, dW) r).1.no_human ∧
    (processDetectResult true moveOkD (sD, dD) r).1.errors =
      (processDetectResult false (fun _ => true) (sW, dW) r).1.errors := by
  by_cases h1 : (r.error.getD "") ≠ ""
  · simp [processDetectResult, h1, ht, hw, hn, he]
  · by_cases h2 : r.has_human.getD true
    · simp [processDetectResult, h1, h2, ht, hw, hn, he]
    · simp [processDetectResult, h1, h2, ht, hw, hn, he]

lemma foldDetect_parallel (moveOkD : FileName → Bool) :
    ∀ (rs : List ResultDict) (sD sW : DetectStats) (dD dW : Dir),
      sD.total = sW.total → sD.with_human = sW.with_human →
      sD.no_human = sW.no_human → sD.errors = sW.errors →
      (rs.foldl (processDetectResult true moveOkD) (sD, dD)).2 = dD ∧
      (rs.foldl (processDetectResult true moveOkD) (sD, dD)).1.moved_files =
        sD.moved_files ∧
      (rs.foldl (processDetectResult true moveOkD) (sD, dD)).1.total =
        (rs.foldl (processDetectResult false (fun _ => true)) (sW, dW)).1.total ∧
      (rs.foldl (processDetectResult true moveOkD) (sD, dD)).1.with_human =
        (rs.foldl (processDetectResult false (fun _ => true))
          (sW, dW)).1.with_human ∧
      (rs.foldl (processDetectResult true moveOkD) (sD, dD)).1.no_human =
        (rs.foldl (processDetectResult false (fun _ => true))
          (sW, dW)).1.no_human ∧
      (rs.foldl (processDetectResult true moveOkD) (sD, dD)).1.errors =
        (rs.foldl (processDetectResult false (fun _ => true))
          (sW, dW)).1.errors := by
  intro rs
  induction rs with
  | nil =>
    intro sD sW dD dW ht hw hn he
    exact ⟨rfl, rfl, ht, hw, hn, he⟩
  | cons r rs ih =>
    intro sD sW dD dW ht hw hn he
    obtain ⟨hd, hm, ht', hw', hn', he'⟩ :=
      processDetect_parallel_step moveOkD sD sW dD dW r ht hw hn he
    simp only [List.foldl_cons]
    have := ih (processDetectResult true moveOkD (sD, dD) r).1
      (processDetectResult false (fun _ => true) (sW, dW) r).1
      (processDetectResult true moveOkD (sD, dD) r).2
      (processDetectResult false (fun _ => true) (sW, dW) r).2
      ht' hw' hn' he'
    rw [Prod.mk.eta, Prod.mk.eta] at this
    obtain ⟨g1, g2, g3, g4, g5, g6⟩ := this
    rw [hd] at g1
    rw [hm] at g2
    exact ⟨g1, g2, g3, g4, g5, g6⟩

lemma runDetect_parallel (outcomes : Nat → CallOutcome)
    (moveOkD : FileName → Bool) :
    ∀ (bs : List (List FileName)) (i : Nat) (st : ClientState)
      (sD sW : DetectStats) (dD dW : Dir),
      sD.total = sW.total → sD.with_human = sW.with_human →
      sD.no_human = sW.no_human → sD.errors = sW.errors →
      (runDetectBatches outcomes true moveOkD bs i st sD dD).2.1 = dD ∧
      (runDetectBatches outcomes true moveOkD bs i st sD dD).1.moved_files =
        sD.moved_files ∧
      (runDetectBatches outcomes true moveOkD bs i st sD dD).1.total =
        (runDetectBatches outcomes false (fun _ => true) bs i st sW dW).1.total ∧
      (runDetectBatches outcomes true moveOkD bs i st sD dD).1.with_human =
        (runDetectBatches outcomes false (fun _ => true) bs i st sW
          dW).1.with_human ∧
      (runDetectBatches outcomes true moveOkD bs i st sD dD).1.no_human =
        (runDetectBatches outcomes false (fun _ => true) bs i st sW
          dW).1.no_human ∧
      (runDetectBatches outcomes true moveOkD bs i st sD dD).1.errors =
        (runDetectBatches outcomes false (fun _ => true) bs i st sW
          dW).1.errors := by
  intro bs
  induction bs with
  | nil =>
    intro i st sD sW dD dW ht hw hn he
    exact ⟨rfl, rfl, ht, hw, hn, he⟩
  | cons b bs ih =>
    intro i st sD sW dD dW ht hw hn he
    simp only [runDetectBatches]
    obtain ⟨hd, hm, ht', hw', hn', he'⟩ := foldDetect_parallel moveOkD
      (analyze_images_batch st b (outcomes i)).2 sD sW dD dW ht hw hn he
    have := ih (i + 1) (analyze_images_batch st b (outcomes i)).1
      ((analyze_images_batch st b (outcomes i)).2.foldl
        (processDetectResult true moveOkD) (sD, dD)).1
      ((analyze_images_batch st b (outcomes i)).2.foldl
        (processDetectResult false (fun _ => true)) (sW, dW)).1
      ((analyze_images_batch st b (outcomes i)).2.foldl
        (processDetectResult true moveOkD) (sD, dD)).2
      ((analyze_images_batch st b (outcomes i)).2.foldl
        (processDetectResult false (fun _ => true)) (sW, dW)).2
      ht' hw' hn' he'
    obtain ⟨g1, g2, g3, g4, g5, g6⟩ := this
    exact ⟨g1.trans hd, g2.trans hm, g3, g4, g5, g6⟩

/-- C10 (confirmed): in dry-run mode the triage performs no filesystem
mutation — the directory (root and quarantine subfolder alike) is returned
unchanged and the moved-files list is empty — while the total and the
accept/reject/error counts equal those of a real run with every move
succeeding: the counts are still computed from the verdicts. -/
theorem C10_dry_run (dir : Dir) (client : ClientState)
    (outcomes : Nat → CallOutcome) (moveOk : FileName → Bool) :
    (detect_and_organize_frames dir client outcomes moveOk true).2.1 = dir ∧
    (detect_and_organize_frames dir client outcomes moveOk
      true).1.moved_files = [] ∧
    (detect_and_organize_frames dir client outcomes moveOk true).1.total =
      (detect_and_organize_frames dir client outcomes (fun _ => true)
        false).1.total ∧
    (detect_and_organize_frames dir client outcomes moveOk
        true).1.with_human =
      (detect_and_organize_frames dir client outcomes (fun _ => true)
        false).1.with_human ∧
    (detect_and_organize_frames dir client outcomes moveOk true).1.no_human =
      (detect_and_organize_frames dir client outcomes (fun _ => true)
        false).1.no_human ∧
    (detect_and_organize_frames dir client outcomes moveOk true).1.errors =
      (detect_and_organize_frames dir client outcomes (fun _ => true)
        false).1.errors := by
  by_cases he : sortFiles (dir.root.filter isImageName) = []
  · rw [detect_empty dir client outcomes moveOk true he,
      detect_empty dir client outcomes (fun _ => true) false he]
    exact ⟨rfl, rfl, rfl, rfl, rfl, rfl⟩
  · rw [detect_nonempty dir client outcomes moveOk true he,
      detect_nonempty dir client outcomes (fun _ => true) false he]
    simp only [if_true, Bool.false_eq_true, if_false]
    exact runDetect_parallel outcomes moveOk _ 0 client _ _ dir _
      rfl rfl rfl rfl

/-! ### Prefix matcher machinery (C8) -/

lemma digit_not_space {c : Char} (h : c.isDigit = true) :
    isSpaceChar c = false := by
  by_contra hs
  rw [Bool.not_eq_false] at hs
  simp only [isSpaceChar, Bool.or_eq_true, decide_eq_true_eq] at hs
  rcases hs with ((((h' | h') | h') | h') | h') | h' <;> subst h' <;>
    exact absurd h (by decide)

lemma digit_ne_newline {c : Char} (h : c.isDigit = true) : c ≠ '\n' := by
  intro h'
  subst h'
  simp [Char.isDigit] at h

lemma digit_ne_slash {c : Char} (h : c.isDigit = true) : c ≠ '/' := by
  intro h'
  subst h'
  simp [Char.isDigit] at h

lemma digit_ne_dot {c : Char} (h : c.isDigit = true) : c ≠ '.' := by
  intro h'
  subst h'
  simp [Char.isDigit] at h

lemma underscore_not_digit : Char.isDigit '_' = false := by decide

/-- A `takeWhile` across an all-satisfying block stops exactly at a failing
head. -/
lemma takeWhile_exact (p : Char → Bool) :
    ∀ (ws rest : List Char), (∀ c ∈ ws, p c = true) →
      (∀ c, rest.head? = some c → p c = false) →
      (ws ++ rest).takeWhile p = ws := by
  intro ws
  induction ws with
  | nil =>
    intro rest _ hrest
    cases rest with
    | nil => rfl
    | cons c cs =>
      simp only [List.nil_append, List.takeWhile_cons, hrest c rfl]
      simp
  | cons w ws ih =>
    intro rest hws hrest
    simp only [List.cons_append, List.takeWhile_cons,
      hws w (List.mem_cons_self w ws), if_true]
    rw [ih rest (fun c hc => hws c (List.mem_cons_of_mem w hc)) hrest]

lemma dropWhile_head_false (p : Char → Bool) :
    ∀ (l : List Char) (x : Char), (l.dropWhile p).head? = some x →
      p x = false := by
  intro l
  induction l with
  | nil => intro x hx; simp at hx
  | cons c cs ih =>
    intro x hx
    rw [List.dropWhile_cons] at hx
    split_ifs at hx with hc
    · exact ih x hx
    · simp only [List.head?_cons, Option.some.injEq] at hx
      rw [← hx]
      exact Bool.not_eq_true _ ▸ (by simpa using hc)

lemma marker_toList_camera : "Camera".toList = ['C', 'a', 'm', 'e', 'r', 'a'] :=
  rfl

lemma marker_toList_ipcamera :
    "IPCamera".toList = ['I', 'P', 'C', 'a', 'm', 'e', 'r', 'a'] := rfl

/-- Completeness of the marker alternation. -/
lemma markerAt_complete {cs : List Char} {k : Nat} {mk rest : List Char}
    (hdrop : cs.drop k = mk ++ rest) (hmk : Marker mk) :
    markerAt cs k = some mk.length := by
  rcases hmk with h | h <;> subst h
  · have hpre : "Camera".toList.isPrefixOf (cs.drop k) = true := by
      rw [List.isPrefixOf_iff_prefix, hdrop]
      exact List.prefix_append _ _
    rw [markerAt, if_pos hpre]
    rfl
  · have hnc : "Camera".toList.isPrefixOf (cs.drop k) = false := by
      rw [hdrop, marker_toList_ipcamera, marker_toList_camera]
      simp [List.isPrefixOf]
    have hpre : "IPCamera".toList.isPrefixOf (cs.drop k) = true := by
      rw [List.isPrefixOf_iff_prefix, hdrop]
      exact List.prefix_append _ _
    rw [markerAt, if_neg (by rw [hnc]; exact Bool.false_ne_true),
      if_pos hpre]
    rfl

/-- Soundness of the marker alternation. -/
lemma markerAt_sound {cs : List Char} {k m : Nat}
    (h : markerAt cs k = some m) :
    ∃ mk rest, Marker mk ∧ mk.length = m ∧ cs.drop k = mk ++ rest := by
  rw [markerAt] at h
  split_ifs at h with h1 h2
  · rcases (List.isPrefixOf_iff_prefix.mp h1) with ⟨rest, hrest⟩
    exact ⟨"Camera".toList, rest, Or.inl rfl, by injection h, hrest.symm⟩
  · rcases (List.isPrefixOf_iff_prefix.mp h2) with ⟨rest, hrest⟩
    exact ⟨"IPCamera".toList, rest, Or.inr rfl, by injection h, hrest.symm⟩

lemma findLeast_sound (p : Nat → Bool) :
    ∀ (fuel start k : Nat), findLeast p start fuel = some k →
      p k = true ∧ start ≤ k ∧ k < start + fuel ∧
        ∀ j, start ≤ j → j < k → p j = false := by
  intro fuel
  induction fuel with
  | zero => intro start k h; simp [findLeast] at h
  | succ n ih =>
    intro start k h
    rw [findLeast] at h
    split_ifs at h with hs
    · rcases Option.some.injEq _ _ ▸ h with rfl
      exact ⟨hs, le_rfl, by omega, fun j h1 h2 => absurd h1 (by omega)⟩
    · obtain ⟨h1, h2, h3, h4⟩ := ih (start + 1) k h
      refine ⟨h1, by omega, by omega, fun j hj1 hj2 => ?_⟩
      by_cases hje : j = start
      · subst hje
        exact Bool.not_eq_true _ ▸ (by simpa using hs)
      · exact h4 j (by omega) hj2

lemma takeWhile_drop (p : Char → Bool) (l : List Char) :
    l.drop (l.takeWhile p).length = l.dropWhile p := by
  nth_rewrite 2 [← List.takeWhile_append_dropWhile p l]
  exact List.drop_left _ _

lemma tail2At_complete {cs : List Char} {k : Nat} {mk ws ds rest : List Char}
    (hdrop : cs.drop k = mk ++ (ws ++ (ds ++ rest)))
    (hmk : Marker mk) (hws : ws ≠ [])
    (hwsall : ∀ c ∈ ws, isSpaceChar c = true)
    (hds : ds ≠ []) (hdsall : ∀ c ∈ ds, Char.isDigit c = true) :
    (tail2At cs k).isSome = true := by
  obtain ⟨d0, ds', rfl⟩ : ∃ d0 ds', ds = d0 :: ds' := by
    cases ds with
    | nil => exact absurd rfl hds
    | cons d0 ds' => exact ⟨d0, ds', rfl⟩
  have hm := markerAt_complete hdrop hmk
  have hdrop2 : cs.drop (k + mk.length) = ws ++ ((d0 :: ds') ++ rest) := by
    rw [← List.drop_drop, hdrop, List.drop_left]
  have hjw : (cs.drop (k + mk.length)).takeWhile isSpaceChar = ws := by
    rw [hdrop2]
    refine takeWhile_exact _ ws _ hwsall ?_
    intro c hc
    simp only [List.cons_append, List.head?_cons, Option.some.injEq] at hc
    rw [← hc]
    exact digit_not_space (hdsall d0 (List.mem_cons_self _ _))
  have hdrop3 : cs.drop (k + mk.length + ws.length) = (d0 :: ds') ++ rest := by
    rw [← List.drop_drop, hdrop2, List.drop_left]
  simp only [tail2At, hm]
  rw [hjw, hdrop3]
  have hd1 : 1 ≤ (((d0 :: ds') ++ rest).takeWhile Char.isDigit).length := by
    rw [List.cons_append, List.takeWhile_cons,
      if_pos (hdsall d0 (List.mem_cons_self _ _))]
    simp
  rw [if_pos ⟨by simpa using List.length_pos.mpr hws, hd1⟩]
  rfl

lemma tail2At_sound {cs : List Char} {k e : Nat}
    (h : tail2At cs k = some e) :
    ∃ mk ws ds, Marker mk ∧ ws ≠ [] ∧
      (∀ c ∈ ws, isSpaceChar c = true) ∧ ds ≠ [] ∧
      (∀ c ∈ ds, Char.isDigit c = true) ∧
      cs.drop k = mk ++ (ws ++ (ds ++ cs.drop e)) ∧
      e = k + mk.length + ws.length + ds.length ∧
      (∀ c, (cs.drop e).head? = some c → c.isDigit = false) := by
  cases hm : markerAt cs k with
  | none =>
    rw [tail2At, hm] at h
    exact absurd h (by simp)
  | some m =>
    simp only [tail2At, hm] at h
    obtain ⟨mk, rest1, hmk, hmlen, hrest1⟩ := markerAt_sound hm
    split_ifs at h with hjd
    · obtain ⟨hj, hd⟩ := hjd
      injection h with he
      refine ⟨mk, (cs.drop (k + m)).takeWhile isSpaceChar,
        (cs.drop (k + m +
          ((cs.drop (k + m)).takeWhile isSpaceChar).length)).takeWhile
          Char.isDigit, hmk, ?_, ?_, ?_, ?_, ?_, ?_, ?_⟩
      · exact List.ne_nil_of_length_pos (by omega)
      · exact fun c hc => List.mem_takeWhile_imp hc
      · exact List.ne_nil_of_length_pos (by omega)
      · exact fun c hc => List.mem_takeWhile_imp hc
      · have h1 : cs.drop (k + m) = rest1 := by
          rw [← List.drop_drop, hrest1, ← hmlen, List.drop_left]
        have h2 : cs.drop (k + m +
            ((cs.drop (k + m)).takeWhile isSpaceChar).length) =
            (cs.drop (k + m)).dropWhile isSpaceChar := by
          rw [← List.drop_drop]
          exact takeWhile_drop _ _
        have h3 : cs.drop e =
            (cs.drop (k + m +
              ((cs.drop (k + m)).takeWhile isSpaceChar).length)).dropWhile
              Char.isDigit := by
          rw [← he, ← List.drop_drop]
          exact takeWhile_drop _ _
        rw [hrest1, ← h1, h3]
        congr 1
        conv_lhs => rw [← List.takeWhile_append_dropWhile isSpaceChar
          (cs.drop (k + m))]
        congr 1
        rw [← h2]
        conv_lhs => rw [← List.takeWhile_append_dropWhile Char.isDigit
          (cs.drop (k + m + ((cs.drop (k + m)).takeWhile
            isSpaceChar).length))]
      · rw [← he, hmlen]
      · intro c hc
        have h3 : cs.drop e =
            (cs.drop (k + m +
              ((cs.drop (k + m)).takeWhile isSpaceChar).length)).dropWhile
              Char.isDigit := by
          rw [← he, ← List.drop_drop]
          exact takeWhile_drop _ _
        rw [h3] at hc
        exact dropWhile_head_false _ _ c hc

lemma findLeast_complete (p : Nat → Bool) :
    ∀ (fuel start k : Nat), start ≤ k → k < start + fuel → p k = true →
      (findLeast p start fuel).isSome = true := by
  intro fuel
  induction fuel with
  | zero => intro start k h1 h2 _; omega
  | succ n ih =>
    intro start k h1 h2 hp
    rw [findLeast]
    split_ifs with hs
    · rfl
    · have hne : start ≠ k := by
        intro h
        rw [h] at hs
        exact hs hp
      exact ih (start + 1) k (by omega) (by omega) hp

lemma take_takeWhile (p : Char → Bool) (l : List Char) :
    l.take (l.takeWhile p).length = l.takeWhile p := by
  nth_rewrite 2 [← List.takeWhile_append_dropWhile p l]
  exact List.take_left _ _

lemma marker_length_pos {mk : List Char} (h : Marker mk) : 0 < mk.length := by
  rcases h with h | h <;> subst h <;> decide

lemma dollarPos_le (cs : List Char) : dollarPos cs ≤ cs.length := by
  rw [dollarPos]
  split_ifs <;> omega

lemma drop_dollarPos (cs : List Char) :
    cs.drop (dollarPos cs) = [] ∨ cs.drop (dollarPos cs) = ['\n'] := by
  rw [dollarPos]
  split_ifs with h
  · right
    rcases cs.eq_nil_or_concat with rfl | ⟨l', x, rfl⟩
    · simp at h
    · rw [List.concat_eq_append] at h ⊢
      rw [List.getLast?_append] at h
      simp only [List.getLast?_singleton, List.getLast?_eq_none_iff] at h
      have hx : x = '\n' := by
        cases hh : (some x).or l'.getLast? <;> simp_all
      subst hx
      rw [List.length_append, List.length_cons, List.length_nil]
      have he : l'.length + (0 + 1) - 1 = l'.length := by omega
      rw [he, List.drop_left]
  · exact Or.inl (List.drop_length cs)

lemma isTsTail_complete {t1 t2 : List Char} (h1l : t1.length = 14)
    (h1d : ∀ c ∈ t1, Char.isDigit c = true) (h2l : t2.length = 14)
    (h2d : ∀ c ∈ t2, Char.isDigit c = true) :
    isTsTail ('_' :: (t1 ++ '_' :: t2)) = true := by
  simp only [isTsTail]
  rw [List.take_left' h1l, List.drop_left' h1l]
  simp only [Bool.and_eq_true, beq_iff_eq, List.length_append,
    List.length_cons, h1l, h2l]
  exact ⟨⟨List.all_eq_true.mpr h1d, trivial⟩, List.all_eq_true.mpr h2d⟩

lemma isTsTail_sound {t : List Char} (h : isTsTail t = true) :
    ∃ t1 t2, t = '_' :: (t1 ++ '_' :: t2) ∧ t1.length = 14 ∧
      (∀ c ∈ t1, Char.isDigit c = true) ∧ t2.length = 14 ∧
      (∀ c ∈ t2, Char.isDigit c = true) := by
  unfold isTsTail at h
  split at h
  case h_2 => exact absurd h (by simp)
  case h_1 rest =>
    simp only [Bool.and_eq_true, beq_iff_eq] at h
    obtain ⟨⟨hall, hlen⟩, hm⟩ := h
    split at hm
    case h_2 => exact absurd hm (by simp)
    case h_1 rest2 heq =>
      refine ⟨rest.take 14, rest2, ?_, ?_, ?_, ?_, List.all_eq_true.mp hm⟩
      · rw [← heq, List.take_append_drop]
      · rw [List.length_take]
        omega
      · exact List.all_eq_true.mp hall
      · have : (rest.drop 14).length = 15 := by
          rw [List.length_drop]
          omega
        rw [heq, List.length_cons] at this
        omega

lemma ne_nil_of_isEmpty_false {l : List Char} (h : l.isEmpty = false) :
    l ≠ [] := by
  intro he
  subst he
  simp at h

/-- Under the declarative tier-1 shape, the effective subject end sits 30
characters past the group, and the first `|g| + 30` characters are the group
followed by the two timestamps. -/
lemma tier1shape_parts {name g t1 t2 nl : List Char}
    (h : Tier1Shape name g t1 t2 nl) :
    dollarPos name = g.length + 30 ∧
      name.take (g.length + 30) = g ++ '_' :: (t1 ++ '_' :: t2) := by
  obtain ⟨hn, _, h1l, _, h2l, h2d, hnl⟩ := h
  have hassoc : name = (g ++ '_' :: (t1 ++ '_' :: t2)) ++ nl := by
    rw [hn]
    simp [List.append_assoc]
  have hcl : (g ++ '_' :: (t1 ++ '_' :: t2)).length = g.length + 30 := by
    simp only [List.length_append, List.length_cons, h1l, h2l]
  have htake : name.take (g.length + 30) = g ++ '_' :: (t1 ++ '_' :: t2) := by
    rw [hassoc]
    exact List.take_left' hcl
  refine ⟨?_, htake⟩
  have hne2 : t2 ≠ [] := by
    intro he
    rw [he] at h2l
    simp at h2l
  have hd : t2.getLast? = some (t2.getLast hne2) := List.getLast?_eq_getLast _ hne2
  have hdd : (t2.getLast hne2).isDigit = true := h2d _ (List.getLast_mem hne2)
  rcases hnl with rfl | rfl
  · -- no trailing newline: the last character is a digit of the second stamp
    have hlast : name.getLast? = some (t2.getLast hne2) := by
      have hsplit : name = (g ++ '_' :: (t1 ++ ['_'])) ++ t2 := by
        rw [hassoc]
        simp [List.append_assoc]
      rw [hsplit, List.getLast?_append, hd]
      rfl
    rw [dollarPos, hlast, if_neg (by
      intro he
      exact digit_ne_newline hdd (by injection he))]
    rw [hassoc, List.append_nil, hcl]
  · -- one trailing newline: Python's dollar still matches before it
    have hlast : name.getLast? = some '\n' := by
      rw [hassoc, List.getLast?_append]
      rfl
    rw [dollarPos, hlast, if_pos rfl, hassoc, List.length_append, hcl]
    simp

/-- If the name decomposes as lazy text, marker, spaces and digits filling
exactly the region up to 30 characters before the subject end, the anchored
group check succeeds at the start of the marker. -/
lemma groupOkAt_complete {cs p mk ws rest : List Char} {d0 : Char}
    {ds' : List Char}
    (hn : cs = p ++ (mk ++ (ws ++ ((d0 :: ds') ++ rest))))
    (hpn : '\n' ∉ p) (hmk : Marker mk) (hws : ws ≠ [])
    (hwsall : ∀ c ∈ ws, isSpaceChar c = true)
    (hdsall : ∀ c ∈ d0 :: ds', Char.isDigit c = true)
    (he : dollarPos cs - 30 =
      p.length + mk.length + ws.length + (d0 :: ds').length) :
    groupOkAt cs p.length = true := by
  have hdropk : cs.drop p.length = mk ++ (ws ++ ((d0 :: ds') ++ rest)) := by
    rw [hn]
    exact List.drop_left _ _
  have hm := markerAt_complete hdropk hmk
  have hws1 : 0 < ws.length := List.length_pos.mpr hws
  simp only [groupOkAt, hm]
  rw [if_pos (by simp only [List.length_cons] at he; omega)]
  have hdropkm : cs.drop (p.length + mk.length) = ws ++ ((d0 :: ds') ++ rest) := by
    rw [← List.drop_drop, hdropk, List.drop_left]
  have hseg : (cs.drop (p.length + mk.length)).take
      (dollarPos cs - 30 - (p.length + mk.length)) = ws ++ (d0 :: ds') := by
    rw [hdropkm, ← List.append_assoc]
    refine List.take_left' ?_
    rw [List.length_append]
    omega
  rw [hseg]
  have hjw : (ws ++ (d0 :: ds')).takeWhile isSpaceChar = ws := by
    refine takeWhile_exact _ ws _ hwsall ?_
    intro c hc
    simp only [List.head?_cons, Option.some.injEq] at hc
    rw [← hc]
    exact digit_not_space (hdsall d0 (List.mem_cons_self _ _))
  rw [hjw, List.drop_left]
  have hnn : noNl cs p.length = true := by
    rw [noNl]
    have ht : cs.take p.length = p := by
      rw [hn]
      exact List.take_left _ _
    rw [ht]
    simpa using hpn
  simp only [Bool.and_eq_true, decide_eq_true_eq]
  exact ⟨⟨⟨hws1, by simp⟩, List.all_eq_true.mpr hdsall⟩, hnn⟩

/-- Conversely, a successful group check at a nonzero offset decomposes the
text up to 30 characters before the subject end into lazy text, marker,
spaces and digits. -/
lemma groupOkAt_sound {cs : List Char} {k : Nat} (hk : k ≠ 0)
    (h : groupOkAt cs k = true) :
    ∃ p mk ws ds, cs.take (dollarPos cs - 30) = p ++ (mk ++ (ws ++ ds)) ∧
      p ≠ [] ∧ '\n' ∉ p ∧ Marker mk ∧ ws ≠ [] ∧
      (∀ c ∈ ws, isSpaceChar c = true) ∧ ds ≠ [] ∧
      (∀ c ∈ ds, Char.isDigit c = true) := by
  cases hm : markerAt cs k with
  | none =>
    simp only [groupOkAt, hm] at h
    exact absurd h (by simp)
  | some m =>
    simp only [groupOkAt, hm] at h
    split_ifs at h with hlt
    simp only [Bool.and_eq_true, decide_eq_true_eq, Bool.not_eq_true'] at h
    obtain ⟨⟨⟨hj, hne⟩, hall⟩, hnn⟩ := h
    obtain ⟨mk, rest1, hmk, hmlen, hrest1⟩ := markerAt_sound hm
    have hdle := dollarPos_le cs
    refine ⟨cs.take k, mk,
      ((cs.drop (k + m)).take (dollarPos cs - 30 - (k + m))).takeWhile
        isSpaceChar,
      ((cs.drop (k + m)).take (dollarPos cs - 30 - (k + m))).drop
        (((cs.drop (k + m)).take (dollarPos cs - 30 -
          (k + m))).takeWhile isSpaceChar).length,
      ?_, ?_, ?_, hmk, ?_, ?_, ne_nil_of_isEmpty_false hne,
      List.all_eq_true.mp hall⟩
    · have e1 : cs.take (dollarPos cs - 30) = cs.take (k + m) ++
          (cs.drop (k + m)).take (dollarPos cs - 30 - (k + m)) := by
        conv_lhs => rw [show dollarPos cs - 30 =
          (k + m) + (dollarPos cs - 30 - (k + m)) from by omega]
        exact List.take_add _ _ _
      have e2 : cs.take (k + m) = cs.take k ++ mk := by
        rw [List.take_add, hrest1, List.take_left' hmlen]
      have e3 : (cs.drop (k + m)).take (dollarPos cs - 30 - (k + m)) =
          ((cs.drop (k + m)).take (dollarPos cs - 30 -
            (k + m))).takeWhile isSpaceChar ++
          ((cs.drop (k + m)).take (dollarPos cs - 30 - (k + m))).drop
            (((cs.drop (k + m)).take (dollarPos cs - 30 -
              (k + m))).takeWhile isSpaceChar).length := by
        conv_lhs => rw [← List.take_append_drop
          ((((cs.drop (k + m)).take (dollarPos cs - 30 -
            (k + m))).takeWhile isSpaceChar).length)
          ((cs.drop (k + m)).take (dollarPos cs - 30 - (k + m)))]
        rw [take_takeWhile]
      rw [e1, e2, List.append_assoc, ← e3]
    · have hkle : k ≤ cs.length := by omega
      have : (cs.take k).length = k := by
        rw [List.length_take]
        omega
      intro hnil
      rw [hnil] at this
      simp at this
      omega
    · rw [noNl] at hnn
      intro hmem
      have : (cs.take k).contains '\n' = true := by simpa using hmem
      rw [this] at hnn
      simp at hnn
    · exact List.ne_nil_of_length_pos (by omega)
    · exact fun c hc => List.mem_takeWhile_imp hc

/-- Completeness of the anchored tier-1 pattern: the declarative shape makes
the match succeed. -/
lemma tier1Ok_complete {name g t1 t2 nl : List Char}
    (h : Tier1Shape name g t1 t2 nl) : tier1Ok name = true := by
  obtain ⟨hd, ht⟩ := tier1shape_parts h
  obtain ⟨hn, hg, h1l, h1d, h2l, h2d, hnl⟩ := h
  obtain ⟨p, mk, ws, ds, hgp, hp, hpn, hmk, hws, hwsall, hds, hdsall⟩ := hg
  obtain ⟨d0, ds', rfl⟩ : ∃ d0 ds', ds = d0 :: ds' := by
    cases ds with
    | nil => exact absurd rfl hds
    | cons d0 ds' => exact ⟨d0, ds', rfl⟩
  have hgl : g.length =
      p.length + (mk.length + (ws.length + (d0 :: ds').length)) := by
    rw [hgp]
    simp [List.length_append]
  have hmk1 := marker_length_pos hmk
  have hws1 : 0 < ws.length := List.length_pos.mpr hws
  rw [tier1Ok, Bool.and_eq_true]
  constructor
  · rw [hd, show g.length + 30 - 30 = g.length from by omega, ht,
      List.drop_left]
    exact isTsTail_complete h1l h1d h2l h2d
  · refine List.any_eq_true.mpr ⟨p.length, List.mem_range.mpr ?_, ?_⟩
    · rw [hd]
      simp only [List.length_cons] at hgl
      omega
    · rw [Bool.and_eq_true]
      have hp0 : 0 < p.length := List.length_pos.mpr hp
      refine ⟨by simp [hp], ?_⟩
      have hn2 : name = p ++ (mk ++ (ws ++ ((d0 :: ds') ++
          ('_' :: (t1 ++ '_' :: (t2 ++ nl)))))) := by
        rw [hn, hgp]
        simp [List.append_assoc]
      refine groupOkAt_complete hn2 hpn hmk hws hwsall hdsall ?_
      rw [hd]
      omega

/-- Soundness of the anchored tier-1 pattern: a successful match forces the
declarative shape, with the group being the text up to 30 characters before
the subject end. -/
lemma tier1Ok_sound {name : List Char} (h : tier1Ok name = true) :
    ∃ g t1 t2 nl, Tier1Shape name g t1 t2 nl ∧
      g = name.take (dollarPos name - 30) := by
  rw [tier1Ok, Bool.and_eq_true] at h
  obtain ⟨hA, hB⟩ := h
  obtain ⟨k, hkmem, hkp⟩ := List.any_eq_true.mp hB
  rw [Bool.and_eq_true, decide_eq_true_eq] at hkp
  obtain ⟨hk0, hgo⟩ := hkp
  obtain ⟨t1', t2', htt, h1l, h1d, h2l, h2d⟩ := isTsTail_sound hA
  have hdle := dollarPos_le name
  have hlen30 :
      ((name.take (dollarPos name)).drop (dollarPos name - 30)).length
        = 30 := by
    rw [htt]
    simp [h1l, h2l]
  have hd30 : 30 ≤ dollarPos name := by
    rw [List.length_drop, List.length_take, min_eq_left hdle] at hlen30
    omega
  obtain ⟨p, mk, ws, ds, hge, hp, hpn, hmk, hws, hwsall, hds, hdsall⟩ :=
    groupOkAt_sound hk0 hgo
  refine ⟨name.take (dollarPos name - 30), t1', t2',
    name.drop (dollarPos name), ⟨?_, ?_, h1l, h1d, h2l, h2d,
      drop_dollarPos name⟩, rfl⟩
  · have e2 : name.take (dollarPos name) =
        name.take (dollarPos name - 30) ++
          ((name.take (dollarPos name)).drop (dollarPos name - 30)) := by
      conv_lhs => rw [← List.take_append_drop (dollarPos name - 30)
        (name.take (dollarPos name))]
      rw [List.take_take,
        min_eq_left (show dollarPos name - 30 ≤ dollarPos name from by omega)]
    have e1 : name = name.take (dollarPos name) ++
        name.drop (dollarPos name) := (List.take_append_drop _ _).symm
    rw [e2, htt] at e1
    conv_lhs => rw [e1]
    simp [List.append_assoc]
  · exact ⟨p, mk, ws, ds, hge, hp, hpn, hmk, hws, hwsall, hds, hdsall⟩

/-- Completeness of the unanchored tier-2 pattern: a camera-index text at
the front of the name makes the lazy match succeed. -/
lemma tier2_complete {name : List Char} (h : Tier2Cond name) :
    (tier2 name).isSome = true := by
  obtain ⟨g, rest, hn, hg⟩ := h
  obtain ⟨p, mk, ws, ds, hgp, hp, hpn, hmk, hws, hwsall, hds, hdsall⟩ := hg
  have hn' : name = p ++ (mk ++ (ws ++ (ds ++ rest))) := by
    rw [hn, hgp]
    simp [List.append_assoc]
  have hdropk : name.drop p.length = mk ++ (ws ++ (ds ++ rest)) := by
    rw [hn']
    exact List.drop_left _ _
  have hts := tail2At_complete hdropk hmk hws hwsall hds hdsall
  have hmk1 := marker_length_pos hmk
  have hp0 : 0 < p.length := List.length_pos.mpr hp
  have hplt : p.length < name.length := by
    have : name.length =
        p.length + (mk.length + (ws.length + (ds.length + rest.length))) := by
      rw [hn']
      simp [List.length_append]
    omega
  have hpk : (fun k => decide (k ≠ 0) && (tail2At name k).isSome) p.length
      = true := by
    simp only [Bool.and_eq_true, decide_eq_true_eq]
    exact ⟨by omega, hts⟩
  have hfl := findLeast_complete
    (fun k => decide (k ≠ 0) && (tail2At name k).isSome) name.length 0
    p.length (by omega) (by omega) hpk
  obtain ⟨k0, hk0⟩ : ∃ k0, findLeast
      (fun k => decide (k ≠ 0) && (tail2At name k).isSome) 0 name.length =
        some k0 := Option.isSome_iff_exists.mp hfl
  obtain ⟨hpk0, _, _, hmin⟩ := findLeast_sound _ _ _ _ hk0
  have hk0le : k0 ≤ p.length := by
    by_contra hlt'
    push_neg at hlt'
    simp only [] at hpk
    rw [hmin p.length (by omega) hlt'] at hpk
    exact absurd hpk (by simp)
  have hnoNl : noNl name k0 = true := by
    rw [noNl]
    have h1 : name.take p.length = p := by
      rw [hn']
      exact List.take_left _ _
    have h2 : name.take k0 = p.take k0 := by
      rw [← h1, List.take_take, min_eq_left hk0le]
    rw [h2]
    have : '\n' ∉ p.take k0 := fun hmem => hpn (List.take_subset _ _ hmem)
    simpa using this
  simp only [tier2, hk0]
  rw [if_pos hnoNl]
  simp only [Bool.and_eq_true, decide_eq_true_eq] at hpk0
  exact hpk0.2

/-- Soundness of the unanchored tier-2 pattern: a successful lazy match ends
the group at a camera-index text, with no digit following it. -/
lemma tier2_sound {name : List Char} {e : Nat} (h : tier2 name = some e) :
    CamIdxEnd (name.take e) ∧ e ≤ name.length ∧
      (∀ c, (name.drop e).head? = some c → c.isDigit = false) := by
  cases hf : findLeast (fun k => decide (k ≠ 0) && (tail2At name k).isSome)
      0 name.length with
  | none =>
    simp only [tier2, hf] at h
    exact absurd h (by simp)
  | some k0 =>
    simp only [tier2, hf] at h
    split_ifs at h with hnl
    obtain ⟨hpk0, _, hk0lt, _⟩ := findLeast_sound _ _ _ _ hf
    simp only [Bool.and_eq_true, decide_eq_true_eq] at hpk0
    obtain ⟨hk00, _⟩ := hpk0
    obtain ⟨mk, ws, ds, hmk, hws, hwsall, hds, hdsall, hdrop, he, hhead⟩ :=
      tail2At_sound h
    have hlen : (name.drop k0).length = name.length - k0 :=
      List.length_drop _ _
    have hlen2 : (name.drop k0).length =
        mk.length + (ws.length + (ds.length + (name.drop e).length)) := by
      rw [hdrop]
      simp [List.length_append]
    have hele : e ≤ name.length := by omega
    refine ⟨⟨name.take k0, mk, ws, ds, ?_, ?_, ?_, hmk, hws, hwsall, hds,
      hdsall⟩, hele, hhead⟩
    · have e1 : name.take e = name.take k0 ++ (name.drop k0).take (e - k0) := by
        conv_lhs => rw [show e = k0 + (e - k0) from by omega]
        exact List.take_add _ _ _
      have e2 : (name.drop k0).take (e - k0) = mk ++ (ws ++ ds) := by
        rw [hdrop]
        have harr : mk ++ (ws ++ (ds ++ name.drop e)) =
            (mk ++ (ws ++ ds)) ++ name.drop e := by
          simp [List.append_assoc]
        rw [harr]
        refine List.take_left' ?_
        simp only [List.length_append]
        omega
      rw [e1, e2]
    · have hlt : (name.take k0).length = k0 := by
        rw [List.length_take]
        omega
      intro hnil
      rw [hnil] at hlt
      simp at hlt
      omega
    · intro hmem
      have hcont : (name.take k0).contains '\n' = true := by simpa using hmem
      rw [noNl, hcont] at hnl
      simp at hnl

/-- A path without a slash is its own basename. -/
lemma basenameOf_no_slash {b : List Char} (h : '/' ∉ b) :
    basenameOf b = b := by
  rw [basenameOf]
  have htw : b.reverse.takeWhile (fun c => decide (c ≠ '/')) = b.reverse := by
    rw [List.takeWhile_eq_self_iff]
    intro a ha
    simp only [decide_eq_true_eq]
    intro he
    subst he
    exact h (List.mem_reverse.mp ha)
  rw [htw, List.reverse_reverse]

/-- Splitting the extension from `stem ++ "." ++ ext` recovers the stem when
the stem is nonempty and dot-free and the extension part has no dot. -/
lemma splitextName_eq {stem e : List Char} (hstem : stem ≠ [])
    (hsd : '.' ∉ stem) (hed : '.' ∉ e) :
    splitextName (stem ++ '.' :: e) = stem := by
  have hrev : (stem ++ '.' :: e).reverse =
      e.reverse ++ ('.' :: stem.reverse) := by
    rw [List.reverse_append, List.reverse_cons]
    simp [List.append_assoc]
  have htw : ((stem ++ '.' :: e).reverse.takeWhile
      (fun c => decide (c ≠ '.'))) = e.reverse := by
    rw [hrev]
    refine takeWhile_exact _ _ _ ?_ ?_
    · intro c hc
      simp only [decide_eq_true_eq]
      intro he
      subst he
      exact hed (List.mem_reverse.mp hc)
    · intro c hc
      simp only [List.head?_cons, Option.some.injEq] at hc
      subst hc
      simp
  simp only [splitextName, htw]
  rw [if_neg (by
    rw [List.length_reverse, List.length_reverse, List.length_append,
      List.length_cons]
    omega)]
  have htake : (stem ++ '.' :: e).take
      ((stem ++ '.' :: e).length - e.reverse.length - 1) = stem := by
    rw [List.length_append, List.length_cons, List.length_reverse]
    have harith : stem.length + (e.length + 1) - e.length - 1 =
        stem.length := by omega
    rw [harith]
    exact List.take_left' rfl
  rw [htake, if_neg]
  intro hall
  obtain ⟨s0, stem', rfl⟩ : ∃ s0 stem', stem = s0 :: stem' := by
    cases stem with
    | nil => exact absurd rfl hstem
    | cons s0 stem' => exact ⟨s0, stem', rfl⟩
  have hs0 : decide (s0 = '.') = true :=
    List.all_eq_true.mp hall s0 (List.mem_cons_self _ _)
  rw [decide_eq_true_eq] at hs0
  subst hs0
  exact hsd (List.mem_cons_self _ _)

/-- C8 (amended): `get_video_prefix` strips the path and extension and then
evaluates three tiers in priority order, with two corrections to the claim.
Tier 1 and tier 2 both require at least one (newline-free) character before
the camera marker (the regexes' lazy `.+?`), so a marker at the very start of
the name does not match; and the third tier falls back to the whole
extension-less name not only when no 14-digit segment exists but also when
the first segment is itself 14 digits (the join of the empty segment list
would otherwise be the empty string).  (1) Under the declarative tier-1
shape — text through the camera index, then `_<14 digits>_<14 digits>`
ending the name — the result is the text through the camera index; (2)
otherwise, when some prefix of the name is a camera-index text, the result
is such a prefix, maximal in the sense that it is not followed by a further
digit; (3) otherwise the result is the underscore-join of the segments
before the first 14-digit segment, or the whole name if that list is empty;
and (4) the Dock family: for any two 14-digit timestamps the name
`Dock_Camera 01_<t1>_<t2>.mp4` yields exactly `Dock_Camera 01`. -/
theorem C8_amended :
    (∀ filename name, splitextName (basenameOf filename) = name →
      ((∀ g t1 t2 nl, Tier1Shape name g t1 t2 nl →
          get_video_prefix filename = g) ∧
       (¬ Tier1Cond name → Tier2Cond name →
          ∃ g rest, name = g ++ rest ∧ CamIdxEnd g ∧
            (∀ c, rest.head? = some c → c.isDigit = false) ∧
            get_video_prefix filename = g) ∧
       (¬ Tier1Cond name → ¬ Tier2Cond name →
          get_video_prefix filename =
            if ((name.splitOn '_').takeWhile
                (fun p => !is14Digits p)).isEmpty then name
            else List.intercalate ['_']
              ((name.splitOn '_').takeWhile (fun p => !is14Digits p))))) ∧
    (∀ t1 t2 : List Char, t1.length = 14 → (∀ c ∈ t1, c.isDigit = true) →
      t2.length = 14 → (∀ c ∈ t2, c.isDigit = true) →
      get_video_prefix
          ("Dock_Camera 01_".toList ++ (t1 ++ '_' :: (t2 ++ ".mp4".toList)))
        = "Dock_Camera 01".toList) := by
  have hmain : ∀ filename name, splitextName (basenameOf filename) = name →
      ((∀ g t1 t2 nl, Tier1Shape name g t1 t2 nl →
          get_video_prefix filename = g) ∧
       (¬ Tier1Cond name → Tier2Cond name →
          ∃ g rest, name = g ++ rest ∧ CamIdxEnd g ∧
            (∀ c, rest.head? = some c → c.isDigit = false) ∧
            get_video_prefix filename = g) ∧
       (¬ Tier1Cond name → ¬ Tier2Cond name →
          get_video_prefix filename =
            if ((name.splitOn '_').takeWhile
                (fun p => !is14Digits p)).isEmpty then name
            else List.intercalate ['_']
              ((name.splitOn '_').takeWhile (fun p => !is14Digits p)))) := by
    intro filename name hname
    refine ⟨?_, ?_, ?_⟩
    · intro g t1 t2 nl hs
      have h1 := tier1Ok_complete hs
      obtain ⟨hd, _⟩ := tier1shape_parts hs
      have hres : get_video_prefix filename =
          name.take (dollarPos name - 30) := by
        simp [ get_video_prefix, hname, h1]
      rw [hres, hd, show g.length + 30 - 30 = g.length from by omega]
      obtain ⟨hn, _⟩ := hs
      rw [hn]
      exact List.take_left _ _
    · intro hnt1 ht2
      have h1 : tier1Ok name = false := by
        cases hb : tier1Ok name
        · rfl
        · obtain ⟨g, t1, t2, nl, hs, _⟩ := tier1Ok_sound hb
          exact absurd ⟨g, t1, t2, nl, hs⟩ hnt1
      obtain ⟨e, he⟩ := Option.isSome_iff_exists.mp (tier2_complete ht2)
      obtain ⟨hcam, hele, hhead⟩ := tier2_sound he
      refine ⟨name.take e, name.drop e, (List.take_append_drop _ _).symm,
        hcam, hhead, ?_⟩
      simp [ get_video_prefix, hname, h1, he]
    · intro hnt1 hnt2
      have h1 : tier1Ok name = false := by
        cases hb : tier1Ok name
        · rfl
        · obtain ⟨g, t1, t2, nl, hs, _⟩ := tier1Ok_sound hb
          exact absurd ⟨g, t1, t2, nl, hs⟩ hnt1
      have h2 : tier2 name = none := by
        cases hb : tier2 name with
        | none => rfl
        | some e =>
          obtain ⟨hcam, _, _⟩ := tier2_sound hb
          exact absurd ⟨name.take e, name.drop e,
            (List.take_append_drop _ _).symm, hcam⟩ hnt2
      simp [ get_video_prefix, hname, h1, h2]
  refine ⟨hmain, ?_⟩
  intro t1 t2 h1l h1d h2l h2d
  have hm4 : ".mp4".toList = '.' :: "mp4".toList := by decide
  have hfs : "Dock_Camera 01_".toList ++ (t1 ++ '_' :: (t2 ++ ".mp4".toList))
      = ("Dock_Camera 01_".toList ++ (t1 ++ '_' :: t2)) ++
        '.' :: "mp4".toList := by
    rw [hm4]
    simp [List.append_assoc]
  have hnoslash :
      '/' ∉ "Dock_Camera 01_".toList ++ (t1 ++ '_' :: (t2 ++ ".mp4".toList)) := by
    intro hmem
    rcases List.mem_append.mp hmem with hm | hm
    · exact absurd hm (by decide)
    · rcases List.mem_append.mp hm with hm2 | hm2
      · exact digit_ne_slash (h1d _ hm2) rfl
      · rcases List.mem_cons.mp hm2 with hm3 | hm3
        · exact absurd hm3 (by decide)
        · rcases List.mem_append.mp hm3 with hm4' | hm4'
          · exact digit_ne_slash (h2d _ hm4') rfl
          · exact absurd hm4' (by decide)
  have hname : splitextName (basenameOf
      ("Dock_Camera 01_".toList ++ (t1 ++ '_' :: (t2 ++ ".mp4".toList)))) =
      "Dock_Camera 01_".toList ++ (t1 ++ '_' :: t2) := by
    rw [basenameOf_no_slash hnoslash, hfs]
    refine splitextName_eq (by simp) ?_ (by decide)
    intro hmem
    rcases List.mem_append.mp hmem with hm | hm
    · exact absurd hm (by decide)
    · rcases List.mem_append.mp hm with hm2 | hm2
      · exact digit_ne_dot (h1d _ hm2) rfl
      · rcases List.mem_cons.mp hm2 with hm3 | hm3
        · exact absurd hm3 (by decide)
        · exact digit_ne_dot (h2d _ hm3) rfl
  have hshape : Tier1Shape ("Dock_Camera 01_".toList ++ (t1 ++ '_' :: t2))
      "Dock_Camera 01".toList t1 t2 [] := by
    refine ⟨?_, ?_, h1l, h1d, h2l, h2d, Or.inl rfl⟩
    · rw [List.append_nil,
        show "Dock_Camera 01_".toList = "Dock_Camera 01".toList ++ ['_']
          from by decide,
        List.append_assoc]
      rfl
    · exact ⟨"Dock_".toList, "Camera".toList, [' '], "01".toList, by decide,
        by decide, by decide, Or.inl rfl, by decide, by decide, by decide,
        by decide⟩
  exact ((hmain _ _ hname).1) _ _ _ _ hshape

/-- C8 witness: a member of the Dock family with two concrete 14-digit
timestamps is keyed to `Dock_Camera 01`, through the amended tier-1
clause. -/
theorem C8_witness :
    get_video_prefix
        ("Dock_Camera 01_".toList ++ ("20250101000000".toList ++
          '_' :: ("20250101000100".toList ++ ".mp4".toList)))
      = "Dock_Camera 01".toList :=
  C8_amended.2 "20250101000000".toList "20250101000100".toList (by decide)
    (by decide) (by decide) (by decide)

end PPE
